import Mathlib

/-!
Verification development for the agentic-dataops recipe execution engine
(`src/agent/core.py` and `src/agent/orchestrator.py`).

The embedding models tabular data as lists of named columns of cells, the
restricted expression language of the sandbox as an inductive syntax tree
mirroring the Python `ast` node kinds that can occur in `mode="eval"`
expressions, and the two evaluation paths of `transform`:
  * the allow-list sandbox (`_SafeVisitor` + `safe_eval`) used by the
    derive stage, and
  * the pandas `.query(..., engine="python")` path used by the filter
    stage, in which bare identifiers resolve to columns of the current
    table and no allow-list validation happens.
Python evaluation is of course far richer than any fragment; the
evaluators below implement the operations the source recipes use
(column subscript on the dataframe, elementwise arithmetic and
comparison with null propagation, the allow-listed builtin calls, series
membership tests and the series `abs` method).  Where a theorem needs an
expression to evaluate, that fact appears as a hypothesis, so the
fragment's partiality never weakens a statement.
-/

namespace DataOps

/-- One cell of a column: Python scalars as they occur in the recipes
(null / NaN, int, str, bool).  Floating point statistics are out of scope. -/
inductive Cell where
  | null : Cell
  | int (i : Int) : Cell
  | str (s : String) : Cell
  | bool (b : Bool) : Cell
deriving DecidableEq, Repr, Inhabited

/-- A table is an ordered list of named columns (pandas DataFrame). -/
abbrev Table := List (String × List Cell)

/-- Look up a column by name (first occurrence, as pandas label lookup). -/
def lookupCol (t : Table) (c : String) : Option (List Cell) :=
  match t with
  | [] => none
  | (n, col) :: rest => if n = c then some col else lookupCol rest c

/-- Column names of a table, in order. -/
def colNames (t : Table) : List String :=
  (t : List (String × List Cell)).map Prod.fst

/-- Row count of a table: length of its first column (pandas `len(df)`);
0 for a table with no columns. -/
def nrows (t : Table) : Nat :=
  match t with
  | [] => 0
  | (_, col) :: _ => col.length

/-- Binary arithmetic operators appearing in recipe expressions. -/
inductive BinOp where
  | add | sub | mul
deriving DecidableEq, Repr

/-- Comparison operators (a single comparator, as recipes use). -/
inductive CmpOp where
  | lt | le | gt | ge | eq | ne | isin
deriving DecidableEq, Repr

mutual

/-- The expression syntax tree.  Constructors mirror the Python `ast`
node kinds reachable from `ast.parse(expr, mode="eval")` for the
expressions the engine handles: `Constant`, `List`, `Name`, `Attribute`,
`Subscript`, `Call`, `BinOp`, `Compare` (one comparator), `BoolOp` (two
values), `UnaryOp Not`, `Lambda`, `ListComp`, `GeneratorExp`.
`Import`/`ImportFrom` are statements and cannot occur in `mode="eval"`
trees, so they have no constructor. -/
inductive Expr where
  | lit (c : Cell) : Expr
  | listLit (xs : ExprList) : Expr
  | name (s : String) : Expr
  | attr (e : Expr) (a : String) : Expr
  | subscript (e : Expr) (i : Expr) : Expr
  | call (f : Expr) (args : ExprList) : Expr
  | binop (op : BinOp) (l r : Expr) : Expr
  | cmp (op : CmpOp) (l r : Expr) : Expr
  | boolAnd (l r : Expr) : Expr
  | boolOr (l r : Expr) : Expr
  | unaryNot (e : Expr) : Expr
  | lam (body : Expr) : Expr
  | listComp (body : Expr) : Expr
  | genExp (body : Expr) : Expr
deriving DecidableEq, Repr

/-- A list of sibling expression nodes (call arguments, list elements). -/
inductive ExprList where
  | nil : ExprList
  | cons (hd : Expr) (tl : ExprList) : ExprList
deriving DecidableEq, Repr

end

/-- Errors of the two expression evaluation paths.  The first five are
the validation rejections of `_SafeVisitor` (each a distinct `ValueError`
message in the source); the rest are runtime errors of evaluation.
`undefinedVariable` is the pandas `UndefinedVariableError` raised by
`.query` name resolution — a different exception from every sandbox
rejection. -/
inductive SErr where
  | disallowedName (s : String)
  | disallowedCall (root : Option String)
  | dunderAttribute
  | lambdaNotAllowed
  | comprehensionNotAllowed
  | nameError (s : String)
  | keyError (s : String)
  | typeError (msg : String)
  | valueError (msg : String)
  | attributeError (msg : String)
  | undefinedVariable (s : String)
deriving DecidableEq, Repr

/-- Decidable equality of `Except` results, used to evaluate concrete
runs of the engine inside proofs. -/
instance {ε α : Type} [DecidableEq ε] [DecidableEq α] :
    DecidableEq (Except ε α) := fun a b =>
  match a, b with
  | .ok x, .ok y => if h : x = y then isTrue (by rw [h]) else isFalse (by simp [h])
  | .error x, .error y => if h : x = y then isTrue (by rw [h]) else isFalse (by simp [h])
  | .ok _, .error _ => isFalse (by simp)
  | .error _, .ok _ => isFalse (by simp)

/-- Character-list implementations of the string operations the source
uses (`startswith`, `endswith`, `lower`, single-character `replace`),
so that every definition evaluates inside the kernel.  `lower` handles
the ASCII range, which covers every extension and title the engine
compares. -/
def strStartsWith (s pre : String) : Bool :=
  pre.data.isPrefixOf s.data

def strEndsWith (s suf : String) : Bool :=
  suf.data.isSuffixOf s.data

def charLower (c : Char) : Char :=
  if 'A' ≤ c && c ≤ 'Z' then Char.ofNat (c.toNat + 32) else c

def strToLower (s : String) : String :=
  ⟨s.data.map charLower⟩

def replaceChar (s : String) (a b : Char) : String :=
  ⟨s.data.map (fun c => if c = a then b else c)⟩

/-- Root identifier of a call target, following attribute access,
indexing and nested calls down to the underlying `Name`
(`_get_root_name` in the source). -/
def getRootName : Expr → Option String
  | .name s => some s
  | .attr e _ => getRootName e
  | .subscript e _ => getRootName e
  | .call f _ => getRootName f
  | _ => none

mutual

/-- The `_SafeVisitor` validation pass.  `allowed` is both
`allowed_names` and `allowed_roots` (the source sets them to the same
set, the keys of `safe_locals`).  The traversal visits nodes in the
order `ast.NodeVisitor.generic_visit` does (field order of each node),
raising on the first violation:
  * a bare `Name` outside the allow-list;
  * a `Call` whose root identifier is missing or outside the allow-list
    (checked before the call's children are visited);
  * an `Attribute` whose attribute name starts with a double underscore
    (checked before the attribute's value is visited);
  * any `Lambda`, `ListComp` or `GeneratorExp` node. -/
def validateExpr (allowed : List String) : Expr → Except SErr Unit
  | .lit _ => .ok ()
  | .listLit xs => validateList allowed xs
  | .name s => if s ∈ allowed then .ok () else .error (.disallowedName s)
  | .attr e a =>
      if strStartsWith a ("__") then .error .dunderAttribute
      else validateExpr allowed e
  | .subscript e i => do
      validateExpr allowed e
      validateExpr allowed i
  | .call f args =>
      match getRootName f with
      | none => .error (.disallowedCall none)
      | some root =>
          if root ∈ allowed then do
            validateExpr allowed f
            validateList allowed args
          else .error (.disallowedCall (some root))
  | .binop _ l r => do
      validateExpr allowed l
      validateExpr allowed r
  | .cmp _ l r => do
      validateExpr allowed l
      validateExpr allowed r
  | .boolAnd l r => do
      validateExpr allowed l
      validateExpr allowed r
  | .boolOr l r => do
      validateExpr allowed l
      validateExpr allowed r
  | .unaryNot e => validateExpr allowed e
  | .lam _ => .error .lambdaNotAllowed
  | .listComp _ => .error .comprehensionNotAllowed
  | .genExp _ => .error .comprehensionNotAllowed

/-- Validation of a list of sibling nodes, left to right. -/
def validateList (allowed : List String) : ExprList → Except SErr Unit
  | .nil => .ok ()
  | .cons e es => do
      validateExpr allowed e
      validateList allowed es

end

/-- Runtime values of the evaluation fragment: scalars, whole columns
(pandas Series), the dataframe binding, the allow-listed builtins
(`pd`, `str`, `int`, `float`, `abs`, `round`, and dotted names reached
through attribute access), bound series methods, and plain Python lists
of scalars (membership-test right-hand sides). -/
inductive Value where
  | scalar (c : Cell) : Value
  | series (col : List Cell) : Value
  | table (t : Table) : Value
  | builtin (n : String) : Value
  | smethod (col : List Cell) (m : String) : Value
  | listV (xs : List Cell) : Value
deriving DecidableEq, Repr, Inhabited

/-- Lookup in an association list of bindings (first occurrence). -/
def lookupVal (locals : List (String × Value)) (s : String) : Option Value :=
  match locals with
  | [] => none
  | (n, v) :: rest => if n = s then some v else lookupVal rest s

/-- Scalar arithmetic with pandas-style null (NaN) propagation.
Ints add/subtract/multiply, strings concatenate under `add`; any other
combination is a runtime type error.  (Floating point is out of scope;
no claim evaluates a float.) -/
def cellArith (op : BinOp) (a b : Cell) : Except SErr Cell :=
  match a, b with
  | .null, _ => .ok .null
  | _, .null => .ok .null
  | .int x, .int y =>
      match op with
      | .add => .ok (.int (x + y))
      | .sub => .ok (.int (x - y))
      | .mul => .ok (.int (x * y))
  | .str x, .str y =>
      match op with
      | .add => .ok (.str (x ++ y))
      | _ => .error (.typeError ("unsupported operand types"))
  | _, _ => .error (.typeError ("unsupported operand types"))

/-- Scalar comparison with pandas NaN semantics: every ordered
comparison and equality involving a null is false, inequality involving
a null is true. -/
def cellCmp (op : CmpOp) (a b : Cell) : Except SErr Bool :=
  match op with
  | .eq =>
      match a, b with
      | .null, _ => .ok false
      | _, .null => .ok false
      | x, y => .ok (x = y)
  | .ne =>
      match a, b with
      | .null, _ => .ok true
      | _, .null => .ok true
      | x, y => .ok (x ≠ y)
  | .isin => .error (.typeError ("isin is handled at the value level"))
  | _ =>
      match a, b with
      | .null, _ => .ok false
      | _, .null => .ok false
      | .int x, .int y =>
          match op with
          | .lt => .ok (x < y)
          | .le => .ok (x ≤ y)
          | .gt => .ok (y < x)
          | .ge => .ok (y ≤ x)
          | _ => .error (.typeError ("unreachable comparison"))
      | .str x, .str y =>
          match op with
          | .lt => .ok (x < y)
          | .le => .ok (x ≤ y || x = y)
          | .gt => .ok (y < x)
          | .ge => .ok (y < x || x = y)
          | _ => .error (.typeError ("unreachable comparison"))
      | _, _ => .error (.typeError ("comparison not supported between these types"))

/-- Binary arithmetic on values with scalar/series broadcasting.
Two series combine positionally and must have equal length (pandas
aligns by index; the engine only ever combines columns of one table,
where lengths agree). -/
def evalBinop (op : BinOp) (v1 v2 : Value) : Except SErr Value :=
  match v1, v2 with
  | .scalar a, .scalar b => do
      let c ← cellArith op a b
      .ok (.scalar c)
  | .series col, .scalar b => do
      let col2 ← col.mapM (fun a => cellArith op a b)
      .ok (.series col2)
  | .scalar a, .series col => do
      let col2 ← col.mapM (fun b => cellArith op a b)
      .ok (.series col2)
  | .series c1, .series c2 =>
      if c1.length = c2.length then do
        let col2 ← (c1.zip c2).mapM (fun p => cellArith op p.1 p.2)
        .ok (.series col2)
      else .error (.typeError ("series length mismatch"))
  | _, _ => .error (.typeError ("unsupported operand types"))

/-- Comparison on values with broadcasting; `isin` tests membership of
a scalar in a list, or of each series element in a list (elementwise,
as pandas translates `in` inside `.query`). -/
def evalCmp (op : CmpOp) (v1 v2 : Value) : Except SErr Value :=
  match op with
  | .isin =>
      match v1, v2 with
      | .scalar a, .listV xs => .ok (.scalar (.bool (a ∈ xs)))
      | .series col, .listV xs =>
          .ok (.series (col.map (fun a => .bool (a ∈ xs))))
      | _, _ => .error (.typeError ("argument of type is not iterable"))
  | _ =>
      match v1, v2 with
      | .scalar a, .scalar b => do
          let r ← cellCmp op a b
          .ok (.scalar (.bool r))
      | .series col, .scalar b => do
          let col2 ← col.mapM (fun a => do
            let r ← cellCmp op a b
            pure (Cell.bool r))
          .ok (.series col2)
      | .scalar a, .series col => do
          let col2 ← col.mapM (fun b => do
            let r ← cellCmp op a b
            pure (Cell.bool r))
          .ok (.series col2)
      | .series c1, .series c2 =>
          if c1.length = c2.length then do
            let col2 ← (c1.zip c2).mapM (fun p => do
              let r ← cellCmp op p.1 p.2
              pure (Cell.bool r))
            .ok (.series col2)
          else .error (.typeError ("series length mismatch"))
      | _, _ => .error (.typeError ("unsupported comparison operands"))

/-- Python truthiness of a scalar cell.  A null cell models a pandas NaN
float, which is truthy in Python. -/
def cellTruthy : Cell → Bool
  | .null => true
  | .int i => i ≠ 0
  | .str s => s ≠ ""
  | .bool b => b

/-- Render a scalar the way Python `str()` does on the modelled cells. -/
def cellToStr : Cell → String
  | .null => "nan"
  | .int i => toString i
  | .str s => s
  | .bool b => if b then "True" else "False"

/-- Apply the series `abs` method / the `abs` builtin elementwise. -/
def seriesAbs (col : List Cell) : Except SErr (List Cell) :=
  col.mapM (fun c =>
    match c with
    | .null => .ok Cell.null
    | .int i => .ok (Cell.int (if i < 0 then -i else i))
    | _ => .error (.typeError ("bad operand type for abs")))

/-- Apply a callable value to evaluated arguments: the allow-listed
builtins on scalars, `abs` on a series, and the bound series method
`abs` (everything the source recipes call; other `pd.*` helpers are
outside the executable fragment and yield a runtime type error, which
never weakens a theorem because evaluation success always appears as a
hypothesis). -/
def applyCallable (f : Value) (args : List Value) : Except SErr Value :=
  match f, args with
  | .builtin n, [arg] =>
      if n = "abs" then
        match arg with
        | .scalar .null => .ok (.scalar .null)
        | .scalar (.int i) => .ok (.scalar (.int (if i < 0 then -i else i)))
        | .series col => do
            let col2 ← seriesAbs col
            .ok (.series col2)
        | _ => .error (.typeError ("bad operand type for abs"))
      else if n = "str" then
        match arg with
        | .scalar c => .ok (.scalar (.str (cellToStr c)))
        | _ => .error (.typeError ("str of non-scalar not modelled"))
      else if n = "int" then
        match arg with
        | .scalar (.int i) => .ok (.scalar (.int i))
        | .scalar (.bool b) => .ok (.scalar (.int (if b then 1 else 0)))
        | _ => .error (.typeError ("int conversion not modelled"))
      else if n = "round" then
        match arg with
        | .scalar (.int i) => .ok (.scalar (.int i))
        | _ => .error (.typeError ("round not modelled on this operand"))
      else .error (.typeError ("call not modelled: " ++ n))
  | .smethod col m, [] =>
      if m = "abs" then do
        let col2 ← seriesAbs col
        .ok (.series col2)
      else .error (.typeError ("series method not modelled: " ++ m))
  | _, _ => .error (.typeError ("object is not callable"))

mutual

/-- Python `eval(compile(node), {"__builtins__": {}}, safe_locals)` on
the modelled fragment: names resolve only in `safe_locals` (the globals
carry no builtins, so an unbound name is a `NameError`), `df['col']`
subscripts the bound dataframe, `df.col` attribute access reads a
column, attribute access on a builtin forms a dotted builtin, attribute
access on a series binds a method, and `and`/`or`/`not` use scalar
truthiness (on a whole series Python raises the ambiguous-truth-value
error). -/
def evalExpr (locals : List (String × Value)) : Expr → Except SErr Value
  | .lit c => .ok (.scalar c)
  | .listLit xs => do
      let vs ← evalExprList locals xs
      let cs ← vs.mapM (fun v =>
        match v with
        | .scalar c => Except.ok c
        | _ => Except.error (SErr.typeError ("non-scalar list element not modelled")))
      .ok (.listV cs)
  | .name s =>
      match lookupVal locals s with
      | some v => .ok v
      | none => .error (.nameError s)
  | .attr e a => do
      let v ← evalExpr locals e
      match v with
      | .builtin n => .ok (.builtin (n ++ "." ++ a))
      | .series col => .ok (.smethod col a)
      | .table t =>
          match lookupCol t a with
          | some col => .ok (.series col)
          | none => .error (.typeError ("dataframe has no attribute " ++ a))
      | _ => .error (.typeError ("attribute access not modelled"))
  | .subscript e i => do
      let v ← evalExpr locals e
      let iv ← evalExpr locals i
      match v, iv with
      | .table t, .scalar (.str c) =>
          match lookupCol t c with
          | some col => .ok (.series col)
          | none => .error (.keyError c)
      | _, _ => .error (.typeError ("subscript not modelled"))
  | .call f args => do
      let fv ← evalExpr locals f
      let avs ← evalExprList locals args
      applyCallable fv avs
  | .binop op l r => do
      let v1 ← evalExpr locals l
      let v2 ← evalExpr locals r
      evalBinop op v1 v2
  | .cmp op l r => do
      let v1 ← evalExpr locals l
      let v2 ← evalExpr locals r
      evalCmp op v1 v2
  | .boolAnd l r => do
      let v1 ← evalExpr locals l
      match v1 with
      | .scalar c => if cellTruthy c then evalExpr locals r else .ok v1
      | _ => .error (.typeError ("truth value of a Series is ambiguous"))
  | .boolOr l r => do
      let v1 ← evalExpr locals l
      match v1 with
      | .scalar c => if cellTruthy c then .ok v1 else evalExpr locals r
      | _ => .error (.typeError ("truth value of a Series is ambiguous"))
  | .unaryNot e => do
      let v ← evalExpr locals e
      match v with
      | .scalar c => .ok (.scalar (.bool (!cellTruthy c)))
      | _ => .error (.typeError ("truth value of a Series is ambiguous"))
  | .lam _ => .error (.typeError ("lambda objects are outside the fragment"))
  | .listComp _ => .error (.typeError ("comprehensions are outside the fragment"))
  | .genExp _ => .error (.typeError ("comprehensions are outside the fragment"))

/-- Evaluate sibling nodes left to right. -/
def evalExprList (locals : List (String × Value)) : ExprList → Except SErr (List Value)
  | .nil => .ok []
  | .cons e es => do
      let v ← evalExpr locals e
      let vs ← evalExprList locals es
      .ok (v :: vs)

end

/-- Elementwise boolean combination for the `.query` translation of
`and` / `or` (pandas rewrites them to `&` / `|` over boolean masks). -/
def maskZip (f : Bool → Bool → Bool) (v1 v2 : Value) : Except SErr Value :=
  match v1, v2 with
  | .series c1, .series c2 =>
      if c1.length = c2.length then do
        let col ← (c1.zip c2).mapM (fun p =>
          match p.1, p.2 with
          | .bool a, .bool b => Except.ok (Cell.bool (f a b))
          | _, _ => Except.error (SErr.typeError ("non-boolean mask")))
        .ok (.series col)
      else .error (.typeError ("series length mismatch"))
  | .scalar (.bool a), .series c2 => do
      let col ← c2.mapM (fun x =>
        match x with
        | .bool b => Except.ok (Cell.bool (f a b))
        | _ => Except.error (SErr.typeError ("non-boolean mask")))
      .ok (.series col)
  | .series c1, .scalar (.bool b) => do
      let col ← c1.mapM (fun x =>
        match x with
        | .bool a => Except.ok (Cell.bool (f a b))
        | _ => Except.error (SErr.typeError ("non-boolean mask")))
      .ok (.series col)
  | .scalar (.bool a), .scalar (.bool b) => .ok (.scalar (.bool (f a b)))
  | _, _ => .error (.typeError ("non-boolean mask"))

mutual

/-- The `DataFrame.query(expr, engine="python")` evaluation path of the
filter stage.  Bare identifiers resolve to columns of the current table
(an unknown identifier is pandas' `UndefinedVariableError`); no
allow-list validation of any kind runs before evaluation.  `and`, `or`
and `not` are rewritten elementwise, `in` becomes an elementwise
membership test, and method calls such as `.abs()` run on the resolved
column. -/
def queryEval (t : Table) : Expr → Except SErr Value
  | .lit c => .ok (.scalar c)
  | .listLit xs => do
      let vs ← queryEvalList t xs
      let cs ← vs.mapM (fun v =>
        match v with
        | .scalar c => Except.ok c
        | _ => Except.error (SErr.typeError ("non-scalar list element not modelled")))
      .ok (.listV cs)
  | .name s =>
      match lookupCol t s with
      | some col => .ok (.series col)
      | none => .error (.undefinedVariable s)
  | .attr e a => do
      let v ← queryEval t e
      match v with
      | .series col => .ok (.smethod col a)
      | _ => .error (.typeError ("attribute access not modelled in query"))
  | .subscript _ _ => .error (.typeError ("subscript not modelled in query"))
  | .call f args => do
      let fv ← queryEval t f
      let avs ← queryEvalList t args
      applyCallable fv avs
  | .binop op l r => do
      let v1 ← queryEval t l
      let v2 ← queryEval t r
      evalBinop op v1 v2
  | .cmp op l r => do
      let v1 ← queryEval t l
      let v2 ← queryEval t r
      evalCmp op v1 v2
  | .boolAnd l r => do
      let v1 ← queryEval t l
      let v2 ← queryEval t r
      maskZip (fun a b => a && b) v1 v2
  | .boolOr l r => do
      let v1 ← queryEval t l
      let v2 ← queryEval t r
      maskZip (fun a b => a || b) v1 v2
  | .unaryNot e => do
      let v ← queryEval t e
      match v with
      | .series col => do
          let col2 ← col.mapM (fun x =>
            match x with
            | .bool b => Except.ok (Cell.bool (!b))
            | _ => Except.error (SErr.typeError ("non-boolean mask")))
          .ok (.series col2)
      | .scalar (.bool b) => .ok (.scalar (.bool (!b)))
      | _ => .error (.typeError ("non-boolean mask"))
  | .lam _ => .error (.typeError ("lambda not accepted by the query parser"))
  | .listComp _ => .error (.typeError ("comprehension not accepted by the query parser"))
  | .genExp _ => .error (.typeError ("comprehension not accepted by the query parser"))

/-- Evaluate sibling nodes of a query expression left to right. -/
def queryEvalList (t : Table) : ExprList → Except SErr (List Value)
  | .nil => .ok []
  | .cons e es => do
      let v ← queryEval t e
      let vs ← queryEvalList t es
      .ok (v :: vs)

end

/-- The two-phase shape of `safe_eval`: run `_SafeVisitor` validation on
the full tree, and only if it passes hand the tree to an evaluation
function.  The evaluator is a parameter so that theorems can state that
a validation failure makes the result independent of evaluation — no
part of a rejected expression is ever executed. -/
def safeEvalWith (f : List (String × Value) → Expr → Except SErr Value)
    (locals : List (String × Value)) (e : Expr) : Except SErr Value :=
  match validateExpr (locals.map Prod.fst) e with
  | .error ve => .error ve
  | .ok () => f locals e

/-- The source's `safe_eval(expr, safe_locals)`: parse (the tree is the
input here), validate with `allowed_names = allowed_roots = set(safe_locals)`,
then evaluate with empty builtins and exactly those locals. -/
def safeEval (locals : List (String × Value)) (e : Expr) : Except SErr Value :=
  safeEvalWith evalExpr locals e

/-- One entry of the recipe's derive list: `{"name": ..., "expr": ...}`. -/
structure DeriveItem where
  name : String
  expr : Expr
deriving DecidableEq, Repr

/-- The `safe_locals_base` bindings of the derive stage: the allow-listed
helpers plus `df` bound to the table as it exists when the stage starts. -/
def safeLocalsBase (out : Table) : List (String × Value) :=
  [("pd", .builtin "pd"), ("df", .table out), ("str", .builtin "str"),
   ("int", .builtin "int"), ("float", .builtin "float"),
   ("abs", .builtin "abs"), ("round", .builtin "round")]

/-- Python dict insertion: overwrite in place if the key exists,
otherwise append. -/
def dictInsert (m : List (String × Value)) (k : String) (v : Value) :
    List (String × Value) :=
  match m with
  | [] => [(k, v)]
  | (k2, v2) :: rest =>
      if k2 = k then (k2, v) :: rest else (k2, v2) :: dictInsert rest k v

/-- The derive loop: `for d in recipe["derive"]: new_cols[d["name"]] = safe_eval(...)`,
accumulating into the `new_cols` dict.  Every expression is evaluated
against the same `locals` (the stage-start snapshot); an evaluation
error aborts the stage. -/
def buildNewCols (locals : List (String × Value)) :
    List DeriveItem → List (String × Value) → Except SErr (List (String × Value))
  | [], acc => .ok acc
  | d :: ds, acc => do
      let v ← safeEval locals d.expr
      buildNewCols locals ds (dictInsert acc d.name v)

/-- Coerce an evaluated derive value to a column of the table's row
count, as `DataFrame.assign` does: a scalar broadcasts, a series must
match positionally (the engine only assigns columns derived from the
same table, where the zero-based indexes coincide; index realignment
beyond that is not modelled). -/
def toColumn (n : Nat) : Value → Except SErr (List Cell)
  | .scalar c => .ok (List.replicate n c)
  | .series col =>
      if col.length = n then .ok col
      else .error (.typeError ("column length mismatch"))
  | _ => .error (.typeError ("cannot assign this value as a column"))

/-- Overwrite the existing columns of a table named in `new_cols`,
keeping every column's position. -/
def updateExisting (n : Nat) (m : List (String × Value)) :
    List (String × List Cell) → Except SErr (List (String × List Cell))
  | [] => .ok []
  | p :: rest =>
      match lookupVal m p.1 with
      | some v => do
          let col ← toColumn n v
          let rest2 ← updateExisting n m rest
          .ok ((p.1, col) :: rest2)
      | none => do
          let rest2 ← updateExisting n m rest
          .ok (p :: rest2)

/-- Materialise the genuinely new columns of `new_cols`, in order. -/
def freshColumns (n : Nat) :
    List (String × Value) → Except SErr (List (String × List Cell))
  | [] => .ok []
  | p :: rest => do
      let col ← toColumn n p.2
      let rest2 ← freshColumns n rest
      .ok ((p.1, col) :: rest2)

/-- `out.assign(**new_cols)`: existing columns are overwritten in place
(keeping their position), new names are appended in `new_cols` order. -/
def assignTable (t : Table) (m : List (String × Value)) : Except SErr Table := do
  let n := nrows t
  let updated ← updateExisting n m t
  let freshCols ← freshColumns n (m.filter (fun p => (lookupCol t p.1).isNone))
  .ok (updated ++ freshCols)

/-- The derive stage of `transform`: build all derived columns first
against the stage-start snapshot, then assign once. -/
def deriveStage (t : Table) (ds : List DeriveItem) : Except SErr Table := do
  let m ← buildNewCols (safeLocalsBase t) ds []
  assignTable t m

/-- The select stage: `out = out[recipe["select"]]` — project to the
named columns in the requested order; a missing name is a `KeyError`. -/
def selectStage (t : Table) (cols : List String) : Except SErr Table :=
  cols.mapM (fun c =>
    match lookupCol t c with
    | some col => Except.ok (c, col)
    | none => Except.error (SErr.keyError c))

/-- Keep the rows of a table selected by a boolean mask. -/
def keepRows (t : Table) (mask : List Cell) : Table :=
  (t : List (String × List Cell)).map (fun p =>
    (p.1, (p.2.zip mask).filterMap (fun q =>
      if q.2 = Cell.bool true then some q.1 else none)))

/-- Is every cell of a mask a boolean? -/
def allBool (mask : List Cell) : Bool :=
  mask.all (fun c => match c with | .bool _ => true | _ => false)

/-- The filter stage: `out = out.query(recipe["filter"], engine="python")`.
The expression is evaluated by the query path (no sandbox validation);
the result must be a boolean vector over the table's rows, and rows
where it is true are kept. -/
def filterStage (t : Table) (e : Expr) : Except SErr Table := do
  let v ← queryEval t e
  match v with
  | .series mask =>
      if mask.length = nrows t ∧ allBool mask then .ok (keepRows t mask)
      else .error (.typeError ("query result must be a boolean vector"))
  | _ => .error (.typeError ("query result must be a boolean vector"))

/-- Read one cell; total, with null for an out-of-range access (used
only after column existence has been checked). -/
def getCell (t : Table) (c : String) (i : Nat) : Cell :=
  ((lookupCol t c).getD []).getD i Cell.null

/-- Build a table column-wise from a list of rows and their column
names, reading the `j`-th cell of each row for the `j`-th name (rows
are padded with nulls if short). -/
def buildTableAux (j : Nat) (rows : List (List Cell)) : List String → Table
  | [] => []
  | n :: ns => (n, rows.map (fun r => r.getD j Cell.null)) :: buildTableAux (j + 1) rows ns

/-- Build a table column-wise from a list of rows and their column
names. -/
def buildTable (names : List String) (rows : List (List Cell)) : Table :=
  buildTableAux 0 rows names

/-- The join spec of a recipe: `{"right_df": ..., "on": [...], "how": ...}`
(`how` defaults to `"left"`; `on` is a Lean keyword, hence the
underscore). -/
structure JoinSpec where
  right_df : String
  on_ : List String
  how : Option String
deriving DecidableEq, Repr

/-- Look up an auxiliary table by name. -/
def lookupTable (l : List (String × Table)) (s : String) : Option Table :=
  match l with
  | [] => none
  | (n, t) :: rest => if n = s then some t else lookupTable rest s

/-- `out.merge(right, on=..., how=...)` for the `left` and `inner`
kinds: rows pair up on equal key tuples; a `left` join keeps every left
row, filling the right-only columns with nulls when unmatched.  The
`right`/`outer` kinds and pandas' `_x`/`_y` suffixing of clashing
non-key names are outside the fragment (no claim exercises the join
stage). -/
def mergeTables (left right : Table) (onKeys : List String) (how : String) :
    Except SErr Table :=
  match onKeys.find? (fun c => (lookupCol left c).isNone || (lookupCol right c).isNone) with
  | some c => .error (.keyError c)
  | none =>
      let rightExtraNames := (colNames right).filter (fun c => c ∉ onKeys)
      let names := colNames left ++ rightExtraNames
      let keyL := fun i => onKeys.map (fun c => getCell left c i)
      let keyR := fun j => onKeys.map (fun c => getCell right c j)
      let leftRow := fun i => (colNames left).map (fun c => getCell left c i)
      let rightExtra := fun j => rightExtraNames.map (fun c => getCell right c j)
      let matchesOf := fun i =>
        ((List.range (nrows right)).filter (fun j => keyR j = keyL i))
      let rowsFor := fun i =>
        match matchesOf i with
        | [] => [leftRow i ++ rightExtraNames.map (fun _ => Cell.null)]
        | js => js.map (fun j => leftRow i ++ rightExtra j)
      if how = "left" then
        .ok (buildTable names ((List.range (nrows left)).flatMap rowsFor))
      else if how = "inner" then
        .ok (buildTable names ((List.range (nrows left)).flatMap
          (fun i => (matchesOf i).map (fun j => leftRow i ++ rightExtra j))))
      else .error (.valueError ("merge kind not modelled: " ++ how))

/-- The groupby spec of a recipe: `{"by": [...], "agg": {col: fn}}`
(`by` is a Lean keyword, hence the underscore). -/
structure GroupSpec where
  by_ : List String
  agg : List (String × String)
deriving DecidableEq, Repr

/-- Deduplicate keeping first occurrences, with an explicit seen set so
the function reduces structurally. -/
def firstDedupAux {α : Type} [DecidableEq α] (seen : List α) : List α → List α
  | [] => []
  | x :: xs =>
      if x ∈ seen then firstDedupAux seen xs
      else x :: firstDedupAux (x :: seen) xs

/-- Distinct elements of a list, first occurrences first. -/
def firstDedup {α : Type} [DecidableEq α] (l : List α) : List α :=
  firstDedupAux [] l

/-- The key tuple of every row of a table, for the given key columns. -/
def allKeys (t : Table) (bys : List String) : List (List Cell) :=
  (List.range (nrows t)).map (fun i => bys.map (fun c => getCell t c i))

/-- A named aggregation applied to the cells of one group.  `sum` adds
the non-null integers (pandas skips NaN), `count` counts non-null
cells, `min`/`max` fold the non-null integers and give null on an
all-null group.  Other names (e.g. `mean`, which produces floats) are
outside the fragment. -/
def aggApply (fn : String) (cells : List Cell) : Except SErr Cell :=
  let ints := cells.filterMap (fun c =>
    match c with | .int i => some i | _ => none)
  if fn = "sum" then .ok (.int ints.sum)
  else if fn = "count" then
    .ok (.int (cells.countP (fun c => c ≠ Cell.null)))
  else if fn = "min" then
    .ok (match ints.min? with | some m => .int m | none => .null)
  else if fn = "max" then
    .ok (match ints.max? with | some m => .int m | none => .null)
  else .error (.attributeError ("unknown aggregate: " ++ fn))

/-- One aggregate column per `(column, function)` entry of the agg
dict, in declaration order: for each distinct key tuple, aggregate the
cells of the column at the rows carrying that key tuple. -/
def buildAggCols (t : Table) (keys distinct : List (List Cell)) :
    List (String × String) → Except SErr (List (String × List Cell))
  | [] => .ok []
  | p :: rest => do
      let col := (lookupCol t p.1).getD []
      let cells ← distinct.mapM (fun k =>
        aggApply p.2 ((keys.zip col).filterMap
          (fun q => if q.1 = k then some q.2 else none)))
      let rest2 ← buildAggCols t keys distinct rest
      .ok ((p.1, cells) :: rest2)

/-- The groupby stage:
`out.groupby(g["by"], dropna=False).agg(g["agg"]).reset_index()`.
Rows are partitioned by their key tuple with `dropna=False`, so null
key values form their own groups instead of being dropped; one output
row is emitted per distinct key tuple, key columns first (restored by
`reset_index`), then the aggregate columns in declaration order.
pandas rejects an empty or duplicated key list, and an aggregate over
a key column or a missing column is a `KeyError` (the keys have become
the index).  Group keys are emitted in first-appearance order; pandas
sorts them, which no claim observes. -/
def groupbyStage (t : Table) (g : GroupSpec) : Except SErr Table :=
  if g.by_ = [] then .error (.valueError ("No group keys passed"))
  else if ¬g.by_.Nodup then .error (.valueError ("Grouper is not 1-dimensional"))
  else match g.by_.find? (fun c => (lookupCol t c).isNone) with
  | some c => .error (.keyError c)
  | none =>
    match g.agg.find? (fun p => (lookupCol t p.1).isNone || p.1 ∈ g.by_) with
    | some p => .error (.keyError p.1)
    | none =>
      match buildAggCols t (allKeys t g.by_) (firstDedup (allKeys t g.by_)) g.agg with
      | .error e => .error e
      | .ok aggCols =>
          .ok (buildTable g.by_ (firstDedup (allKeys t g.by_)) ++ aggCols)

/-- A transform recipe; a `none` stage is one that is absent from the
recipe dict (or, for `filter`, present with an empty — falsy — string). -/
structure Recipe where
  select : Option (List String) := none
  filter : Option Expr := none
  derive : Option (List DeriveItem) := none
  join : Option JoinSpec := none
  groupby : Option GroupSpec := none
deriving DecidableEq, Repr

/-- Source `transform(df, recipe, aux_dfs)`: stages run in the fixed
order select → filter → derive → join → groupby, each consuming the
previous stage's output; `df.copy()` / `out.copy(deep=True)` are
identities under value semantics. -/
def transform (df : Table) (recipe : Recipe)
    (aux_dfs : Option (List (String × Table))) : Except SErr Table := do
  let out := df
  let out ← match recipe.select with
    | some cols => selectStage out cols
    | none => pure out
  let out ← match recipe.filter with
    | some e => filterStage out e
    | none => pure out
  let out ← match recipe.derive with
    | some ds => deriveStage out ds
    | none => pure out
  let out ← match recipe.join with
    | some j =>
        match (match aux_dfs with
               | none => none
               | some l => lookupTable l j.right_df) with
        | none => throw (.valueError ("Aux DF " ++ j.right_df ++ " not provided for join."))
        | some r => mergeTables out r j.on_ (j.how.getD "left")
    | none => pure out
  match recipe.groupby with
  | some g => groupbyStage out g
  | none => pure out

/-- Bounds of a `range` DQ rule: `{"min": ..., "max": ...}`, either
optional, integer bounds in the modelled fragment. -/
structure Bounds where
  min : Option Int := none
  max : Option Int := none
deriving DecidableEq, Repr

/-- A DQ ruleset; each list is in the ruleset document's declaration
order (Python dicts preserve insertion order). -/
structure DQRules where
  non_null : List String := []
  unique : List String := []
  range : List (String × Bounds) := []
  allowed_values : List (String × List Cell) := []
deriving DecidableEq, Repr

/-- Issue strings contributed by one `non_null` rule. -/
def nonNullCheck (t : Table) (col : String) : List String :=
  match lookupCol t col with
  | none => ["Column missing for non_null: " ++ col]
  | some cells =>
      let n := cells.countP (fun c => c = Cell.null)
      if n > 0 then
        ["Non-null violation: " ++ col ++ " has " ++ toString n ++ " nulls"]
      else []

/-- Issue strings contributed by one `unique` rule.
`df.duplicated(subset=[col]).sum()` counts the rows whose value already
occurred at an earlier row (all-but-first occurrences); pandas treats
equal NaNs as duplicates of each other. -/
def uniqueCheck (t : Table) (col : String) : List String :=
  match lookupCol t col with
  | none => ["Column missing for unique: " ++ col]
  | some cells =>
      let dup := (List.range cells.length).countP
        (fun i => (List.range i).any
          (fun j => cells.getD j Cell.null = cells.getD i Cell.null))
      if dup > 0 then
        ["Unique violation: " ++ col ++ " has " ++ toString dup ++ " duplicates"]
      else []

/-- Comparison of a cell against an integer range bound; NaN compares
false, so null cells never violate a bound (pandas semantics of
`s < bounds["min"]`). -/
def cellLtInt (c : Cell) (b : Int) : Bool :=
  match c with | .int i => i < b | _ => false

def cellGtInt (c : Cell) (b : Int) : Bool :=
  match c with | .int i => b < i | _ => false

/-- Issue strings contributed by one `range` rule: one issue per
violated bound, `min` checked before `max`, each naming the violating
row count. -/
def rangeCheck (t : Table) (col : String) (b : Bounds) : List String :=
  match lookupCol t col with
  | none => ["Column missing for range: " ++ col]
  | some cells =>
      (match b.min with
       | some lo =>
           let v := cells.countP (fun c => cellLtInt c lo)
           if v > 0 then
             ["Range violation: " ++ col ++ " < " ++ toString lo ++
              " count=" ++ toString v]
           else []
       | none => []) ++
      (match b.max with
       | some hi =>
           let v := cells.countP (fun c => cellGtInt c hi)
           if v > 0 then
             ["Range violation: " ++ col ++ " > " ++ toString hi ++
              " count=" ++ toString v]
           else []
       | none => [])

/-- Issue strings contributed by one `allowed_values` rule:
`~df[col].isin(allowed)` — null cells are out-of-domain unless null is
itself listed. -/
def allowedCheck (t : Table) (col : String) (allowed : List Cell) : List String :=
  match lookupCol t col with
  | none => ["Column missing for allowed_values: " ++ col]
  | some cells =>
      let bad := cells.countP (fun c => c ∉ allowed)
      if bad > 0 then
        ["Allowed-values violation: " ++ col ++ " has " ++ toString bad ++
         " out-of-domain values"]
      else []

/-- Source `dq_check(df, rules)`: four sequential loops append issues
to one list — `non_null`, then `unique`, then `range`, then
`allowed_values`, each in declaration order — and `ok` is whether the
accumulated list stayed empty.  A missing column contributes its issue
and checking continues with the remaining rules. -/
def dq_check (df : Table) (rules : DQRules) : Bool × List String :=
  let issues := rules.non_null.foldl (fun acc col => acc ++ nonNullCheck df col) []
  let issues := rules.unique.foldl (fun acc col => acc ++ uniqueCheck df col) issues
  let issues := rules.range.foldl
    (fun acc p => acc ++ rangeCheck df p.1 p.2) issues
  let issues := rules.allowed_values.foldl
    (fun acc p => acc ++ allowedCheck df p.1 p.2) issues
  (issues.length = 0, issues)

end DataOps

namespace DataOps

/-- A table profile.  The source's `profile_df` also records per-column
null counts, cardinality and float statistics (min/max/mean/std); no
claim reads anything but the shape, and the float statistics are not
representable exactly, so the profile is modelled by its shape. -/
structure Profile where
  rows : Nat
  cols : Nat
deriving DecidableEq, Repr

/-- `profile_df`: `rows = len(df)`, `cols = df.shape[1]`. -/
def profile_df (df : Table) : Profile :=
  { rows := nrows df, cols := df.length }

/-- The `inputs` mapping of `plan` / `run_agent`.  `dq_rules` and
`recipe` are `none` exactly when the key is absent or its value is
falsy (an empty dict), matching the Python truthiness tests; an empty
string is falsy too, so string options are additionally tested against
`""` where the source tests truthiness. -/
structure Inputs where
  sales_path : Option String := none
  regions_path : Option String := none
  out_path : Option String := none
  dq_rules : Option DQRules := none
  recipe : Option Recipe := none
  report_title : Option String := none
deriving DecidableEq, Repr

/-- One plan step, as built by `plan` (the `op` dicts of the source). -/
inductive Step where
  | load_sales (path : Option String) : Step
  | load_regions (path : String) : Step
  | profile_input : Step
  | transformStep (recipe : Recipe) : Step
  | dq_checkStep (rules : DQRules) : Step
  | save (path : String) : Step
  | profile_output : Step
  | report (title : String) : Step
deriving DecidableEq, Repr

/-- Source `plan(goal, inputs)`: always load sales; load regions only
if a truthy regions path was supplied; profile the input; transform
only on a truthy recipe; dq_check only on truthy rules; save only on a
truthy output path; profile the output; report (always last).  The
`goal` parameter is accepted but never read. -/
def plan (goal : String) (inputs : Inputs) : List Step :=
  let sales := inputs.sales_path
  let regions := inputs.regions_path
  let out_path := inputs.out_path
  let rules := inputs.dq_rules
  let recipe := inputs.recipe
  let title := inputs.report_title.getD ("DataOps Agent Run")
  [Step.load_sales sales]
  ++ (match regions with
      | some r => if r ≠ "" then [Step.load_regions r] else []
      | none => [])
  ++ [Step.profile_input]
  ++ (match recipe with
      | some rc => [Step.transformStep rc]
      | none => [])
  ++ (match rules with
      | some rs => [Step.dq_checkStep rs]
      | none => [])
  ++ (match out_path with
      | some p => if p ≠ "" then [Step.save p] else []
      | none => [])
  ++ [Step.profile_output, Step.report title]

/-- The run log accumulated by `run_agent`.  Optional fields are keys
the Python dict acquires only when the corresponding step runs;
`saved` is read back with `log.get("saved", False)`, hence a plain
Bool defaulting to false. -/
structure RunLog where
  goal : String
  steps : List Step
  dq_requested : Bool
  sections : List (String × String)
  sales_path : Option String := none
  regions_path : Option String := none
  input_profile : Option Profile := none
  transform_recipe : Option Recipe := none
  dq_ok : Option Bool := none
  dq_issues : Option (List String) := none
  saved : Bool := false
  out_path : Option String := none
  output_profile : Option Profile := none
  reflection_ok : Option Bool := none
  reflection_issues : Option (List String) := none
  report_path : Option String := none
deriving DecidableEq, Repr

/-- Source `reflect(run_log)`: flag a requested-but-failed DQ check,
and flag a save whose output profile records zero rows — where an
absent output profile reads as zero rows via
`run_log.get("output_profile", {}).get("rows", 0)`. -/
def reflect (run_log : RunLog) : Bool × List String :=
  let issues : List String := []
  let issues := issues ++
    (if run_log.dq_requested && !(run_log.dq_ok.getD false) then
      ["DQ checks failed."] else [])
  let issues := issues ++
    (if run_log.saved &&
        ((match run_log.output_profile with
          | some p => p.rows
          | none => 0) = 0) then
      ["Output has zero rows."] else [])
  (issues.length = 0, issues)

/-- One persisted run history entry (`MEM["runs"]` element). -/
structure RunEntry where
  timestamp : String
  goal : String
  out_path : Option String
  report_path : Option String
  reflection_ok : Bool
deriving DecidableEq, Repr

/-- The process-wide persisted state (`MEM`): the report directory
preference and the run history. -/
structure Mem where
  report_dir : String
  runs : List RunEntry
deriving DecidableEq, Repr

/-- Source `write_report`: the report path is
`report_dir/{timestamp}_{title with spaces underscored}.md`; writing
the file itself is external I/O, so the model returns the path. -/
def write_report (now : String) (title : String) (report_dir : String) : String :=
  report_dir ++ "/" ++ now ++ "_" ++ replaceChar title ' ' '_' ++ ".md"

/-- Hard errors a plan step can raise: `load_df`/`save_df` path errors
and a transform failure; `noTable` stands for the Python attribute
error of operating on a table that was never loaded. -/
inductive ExecErr where
  | noPath : ExecErr
  | unsupportedType (path : String) : ExecErr
  | fileNotFound (path : String) : ExecErr
  | noTable : ExecErr
  | transformErr (e : SErr) : ExecErr
deriving DecidableEq, Repr

/-- Source `load_df`: dispatch on the lowercased extension, then read
the file (the file system is an explicit name-to-table mapping here;
`safe_path` confinement is an I/O concern outside the model). -/
def load_df (fs : List (String × Table)) (path : String) : Except ExecErr Table :=
  if strEndsWith (strToLower path) (".csv") || strEndsWith (strToLower path) (".parquet") then
    match lookupTable fs path with
    | some t => .ok t
    | none => .error (.fileNotFound path)
  else .error (.unsupportedType path)

/-- Overwrite-or-append a file in the modelled file system. -/
def fsWrite (fs : List (String × Table)) (path : String) (t : Table) :
    List (String × Table) :=
  match fs with
  | [] => [(path, t)]
  | (p, t2) :: rest =>
      if p = path then (p, t) :: rest else (p, t2) :: fsWrite rest path t

/-- Abbreviated renderings of a profile for the report sections (the
source embeds `json.dumps`; no claim reads section bodies). -/
def profileText (p : Profile) : String :=
  "rows=" ++ toString p.rows ++ " cols=" ++ toString p.cols

/-- The executor's mutable state while driving a plan. -/
structure ExecState where
  log : RunLog
  sales_df : Option Table := none
  regions_df : Option Table := none
  output_df : Option Table := none
  fs : List (String × Table)
deriving DecidableEq, Repr

/-- The table a dq_check / save / profile_output step operates on:
`output_df if output_df is not None else sales_df`. -/
def currentTable (s : ExecState) : Option Table :=
  match s.output_df with
  | some t => some t
  | none => s.sales_df

/-- One iteration of the `for st in steps` dispatch of `run_agent`. -/
def execStep (mem : Mem) (now : String) (s : ExecState) :
    Step → Except ExecErr ExecState
  | .load_sales pathOpt =>
      match pathOpt with
      | none => .error .noPath
      | some path => do
          let df ← load_df s.fs path
          .ok { s with
                  sales_df := some df,
                  log := { s.log with
                            sales_path := some path,
                            sections := s.log.sections ++
                              [("Loaded Sales",
                                "Rows: " ++ toString (nrows df) ++
                                "  |  Path: " ++ path)] } }
  | .load_regions path => do
      let df ← load_df s.fs path
      .ok { s with
              regions_df := some df,
              log := { s.log with
                        regions_path := some path,
                        sections := s.log.sections ++
                          [("Loaded Regions",
                            "Rows: " ++ toString (nrows df) ++
                            "  |  Path: " ++ path)] } }
  | .profile_input =>
      match s.sales_df with
      | none => .error .noTable
      | some df =>
          let prof := profile_df df
          .ok { s with
                  log := { s.log with
                            input_profile := some prof,
                            sections := s.log.sections ++
                              [("Input Profile", profileText prof)] } }
  | .transformStep recipe =>
      match s.sales_df with
      | none => .error .noTable
      | some df =>
          let aux := match s.regions_df with
            | some r => [("regions", r)]
            | none => []
          match transform df recipe (some aux) with
          | .error e => .error (.transformErr e)
          | .ok out =>
              .ok { s with
                      output_df := some out,
                      log := { s.log with
                                transform_recipe := some recipe,
                                sections := s.log.sections ++
                                  [("Transform", "Applied recipe successfully.")] } }
  | .dq_checkStep rules =>
      match currentTable s with
      | none => .error .noTable
      | some df =>
          let r := dq_check df rules
          .ok { s with
                  log := { s.log with
                            dq_ok := some r.1,
                            dq_issues := some r.2,
                            sections := s.log.sections ++
                              [("Data Quality",
                                if r.1 then "OK"
                                else "Issues:\n- " ++
                                  String.intercalate ("\n- ") r.2)] } }
  | .save path =>
      match currentTable s with
      | none => .error .noTable
      | some df =>
          if strEndsWith (strToLower path) (".csv") || strEndsWith (strToLower path) (".parquet") then
            .ok { s with
                    fs := fsWrite s.fs path df,
                    log := { s.log with
                              saved := true,
                              out_path := some path,
                              sections := s.log.sections ++
                                [("Save", "Saved to " ++ path)] } }
          else .error (.unsupportedType path)
  | .profile_output =>
      match currentTable s with
      | none => .error .noTable
      | some df =>
          let prof := profile_df df
          .ok { s with
                  log := { s.log with
                            output_profile := some prof,
                            sections := s.log.sections ++
                              [("Output Profile", profileText prof)] } }
  | .report title =>
      let r := reflect s.log
      let rpt := write_report now title mem.report_dir
      .ok { s with
              log := { s.log with
                        reflection_ok := some r.1,
                        reflection_issues := some r.2,
                        sections := s.log.sections ++
                          [("Reflection",
                            "Pass: " ++ (if r.1 then "True" else "False") ++
                            "\nIssues: " ++
                            (if r.1 then "None"
                             else "\n- " ++ String.intercalate ("\n- ") r.2))],
                        report_path := some rpt } }

/-- Drive the remaining plan steps in order; the first hard error
aborts the rest of the plan. -/
def execSteps (mem : Mem) (now : String) :
    List Step → ExecState → Except ExecErr ExecState
  | [], s => .ok s
  | st :: rest, s => do
      let s2 ← execStep mem now s st
      execSteps mem now rest s2

/-- The run history entry appended by `run_agent` after the plan
completes. -/
def mkRunEntry (now goal : String) (log : RunLog) : RunEntry :=
  { timestamp := now, goal := goal, out_path := log.out_path,
    report_path := log.report_path,
    reflection_ok := log.reflection_ok.getD false }

/-- Source `run_agent(goal, inputs)`: plan, drive every step, and —
only if no step raised — append exactly one run history entry to the
process-wide state and persist it.  `now` stands for the wall-clock
timestamps; the loaded/updated file system travels explicitly. -/
def run_agent (now goal : String) (inputs : Inputs)
    (fs : List (String × Table)) (mem : Mem) :
    Except ExecErr (RunLog × Mem × List (String × Table)) :=
  let steps := plan goal inputs
  let log0 : RunLog :=
    { goal := goal, steps := steps,
      dq_requested := inputs.dq_rules.isSome, sections := [] }
  let s0 : ExecState := { log := log0, fs := fs }
  match execSteps mem now steps s0 with
  | .error e => .error e
  | .ok s =>
      .ok (s.log,
           { mem with runs := mem.runs ++ [mkRunEntry now goal s.log] },
           s.fs)

end DataOps

namespace DataOps

mutual

/-- Does the expression contain (anywhere in its tree) a call node
whose root identifier is missing or outside the allow-list — i.e. a
call `_SafeVisitor.visit_Call` would reject if it reached it? -/
def hasDisallowedCall (allowed : List String) : Expr → Bool
  | .lit _ => false
  | .listLit xs => hasDisallowedCallList allowed xs
  | .name _ => false
  | .attr e _ => hasDisallowedCall allowed e
  | .subscript e i => hasDisallowedCall allowed e || hasDisallowedCall allowed i
  | .call f args =>
      (match getRootName f with
       | none => true
       | some root => decide (root ∉ allowed)) ||
      hasDisallowedCall allowed f || hasDisallowedCallList allowed args
  | .binop _ l r => hasDisallowedCall allowed l || hasDisallowedCall allowed r
  | .cmp _ l r => hasDisallowedCall allowed l || hasDisallowedCall allowed r
  | .boolAnd l r => hasDisallowedCall allowed l || hasDisallowedCall allowed r
  | .boolOr l r => hasDisallowedCall allowed l || hasDisallowedCall allowed r
  | .unaryNot e => hasDisallowedCall allowed e
  | .lam body => hasDisallowedCall allowed body
  | .listComp body => hasDisallowedCall allowed body
  | .genExp body => hasDisallowedCall allowed body

/-- List version of `hasDisallowedCall`. -/
def hasDisallowedCallList (allowed : List String) : ExprList → Bool
  | .nil => false
  | .cons e es => hasDisallowedCall allowed e || hasDisallowedCallList allowed es

end

/-- An evaluator that succeeds on everything without looking at the
expression; handing it to `safeEvalWith` shows that a rejected
expression's result is decided by validation alone. -/
def evalStub (locals : List (String × Value)) (e : Expr) : Except SErr Value :=
  .ok (.scalar (.int 99))

/-- Is an outcome the sandbox `DisallowedCall` rejection? -/
def isDisallowedCallErr {α : Type} : Except SErr α → Bool
  | .error (.disallowedCall _) => true
  | _ => false

/-- How many columns of the table carry this name. -/
def countColName (t : Table) (n : String) : Nat :=
  (colNames t).count n

-- Concrete data used by witnesses and counterexamples. --

/-- A one-column table of revenues (with a null, as real loads have). -/
def tRev : Table := [("revenue", [Cell.int 5, Cell.int (-2), Cell.null])]

/-- A two-column table whose groupby key column contains a null. -/
def tNullKey : Table :=
  [("k", [Cell.str "a", Cell.null, Cell.str "a"]),
   ("v", [Cell.int 1, Cell.int 2, Cell.int 4])]

/-- `foo(revenue)`: a filter expression calling a function outside the
sandbox allow-list. -/
def eBadCall : Expr := .call (.name "foo") (.cons (.name "revenue") .nil)

/-- `revenue.abs() >= 0`: rejected by the sandbox validator (root
`revenue` is not allow-listed) yet a perfectly fine query filter. -/
def eAbsFilter : Expr :=
  .cmp .ge (.call (.attr (.name "revenue") "abs") .nil) (.lit (.int 0))

/-- `foo + bar(1)`: contains a disallowed call, but the visitor meets
the disallowed bare name `foo` first. -/
def eNameThenCall : Expr :=
  .binop .add (.name "foo") (.call (.name "bar") (.cons (.lit (.int 1)) .nil))

/-- `revenue >= 0` as a query filter over `tRev`. -/
def eRevFilter : Expr := .cmp .ge (.name "revenue") (.lit (.int 0))

/-- `df['revenue'] + 1` as a derive expression. -/
def eRevPlusOne : Expr :=
  .binop .add (.subscript (.name "df") (.lit (.str "revenue"))) (.lit (.int 1))

/-- `abs(df['revenue'])` as a derive expression. -/
def eAbsRev : Expr :=
  .call (.name "abs") (.cons (.subscript (.name "df") (.lit (.str "revenue"))) .nil)

/-- The file system of the concrete orchestrator run. -/
def fsEx : List (String × Table) := [("sales.csv", tNullKey)]

/-- Inputs of the concrete orchestrator run: a DQ ruleset that the
table violates (the key column has a null), and an output path. -/
def inputsEx : Inputs :=
  { sales_path := some "sales.csv",
    dq_rules := some { non_null := ["k"] },
    out_path := some "out.csv" }

/-- Initial persisted state of the concrete run. -/
def memEx : Mem := { report_dir := "reports", runs := [] }

/-- The concrete run itself. -/
def runEx : Except ExecErr (RunLog × Mem × List (String × Table)) :=
  run_agent "T1" "clean sales" inputsEx fsEx memEx

/-- Empty run log used as a fallback when destructuring `runEx`. -/
def emptyLog : RunLog :=
  { goal := "", steps := [], dq_requested := false, sections := [] }

/-- The log of the concrete run. -/
def logEx : RunLog :=
  match runEx with
  | .ok (l, _, _) => l
  | .error _ => emptyLog

/-- The persisted state after the concrete run. -/
def memEx2 : Mem :=
  match runEx with
  | .ok (_, m, _) => m
  | .error _ => { report_dir := "", runs := [] }

/-- The file system after the concrete run. -/
def fsEx2 : List (String × Table) :=
  match runEx with
  | .ok (_, _, f) => f
  | .error _ => []

/-- A run log recording a save but no output profile (C10's shape). -/
def logSavedNoProfile : RunLog :=
  { goal := "g", steps := [], dq_requested := false, sections := [],
    saved := true }

end DataOps

namespace DataOps

/-- The result of deriving `r1` and `a2` over `tRev`. -/
def tDerived : Table :=
  [("revenue", [Cell.int 5, Cell.int (-2), Cell.null]),
   ("r1", [Cell.int 6, Cell.int (-1), Cell.null]),
   ("a2", [Cell.int 5, Cell.int 2, Cell.null])]

/-- The result of grouping `tNullKey` by `k`, summing `v`. -/
def tGrouped : Table :=
  [("k", [Cell.str "a", Cell.null]), ("v", [Cell.int 5, Cell.int 2])]

end DataOps

namespace DataOps

/-! General lemmas about table and binding lookups. -/

theorem lookupCol_append_left {t u : Table} {k : String} {col : List Cell}
    (h : lookupCol t k = some col) : lookupCol (t ++ u) k = some col := by
  induction t with
  | nil => simp [lookupCol] at h
  | cons p rest ih =>
      obtain ⟨n, c⟩ := p
      by_cases hn : n = k
      · simp [lookupCol, hn] at h ⊢
        exact h
      · simp [lookupCol, hn] at h ⊢
        exact ih h

theorem lookupCol_append_right {t u : Table} {k : String}
    (h : lookupCol t k = none) : lookupCol (t ++ u) k = lookupCol u k := by
  induction t with
  | nil => simp [lookupCol]
  | cons p rest ih =>
      obtain ⟨n, c⟩ := p
      by_cases hn : n = k
      · simp [lookupCol, hn] at h
      · simp [lookupCol, hn] at h ⊢
        exact ih h

theorem lookupCol_eq_none_iff {t : Table} {k : String} :
    lookupCol t k = none ↔ k ∉ colNames t := by
  induction t with
  | nil => simp [lookupCol, colNames]
  | cons p rest ih =>
      obtain ⟨n, c⟩ := p
      by_cases hn : n = k
      · simp [lookupCol, hn, colNames]
      · simp [lookupCol, hn, colNames, ih]
        intro h
        exact fun he => hn he.symm

theorem lookupCol_mem_of_some {t : Table} {k : String} {col : List Cell}
    (h : lookupCol t k = some col) : k ∈ colNames t := by
  by_contra hk
  rw [← lookupCol_eq_none_iff] at hk
  rw [h] at hk
  cases hk

/-! ### C8 -/

/-- C8: for every two goal strings and every fixed inputs mapping, the
planner emits identical step lists — `plan` never reads its `goal`
argument, so the emitted plan depends only on the inputs. -/
theorem plan_goal_independent (g1 g2 : String) (inputs : Inputs) :
    plan g1 inputs = plan g2 inputs := rfl

/-! ### C10 -/

/-- C10: on a run log that records a save but no output profile at all,
`reflect` reads the absent profile as zero rows and reports failure with
the issue "Output has zero rows." — it cannot distinguish a missing
output profile from a genuinely empty output. -/
theorem reflect_saved_no_profile (log : RunLog)
    (hs : log.saved = true) (hp : log.output_profile = none) :
    (reflect log).1 = false ∧ "Output has zero rows." ∈ (reflect log).2 := by
  unfold reflect
  rw [hs, hp]
  cases hdq : (log.dq_requested && !(log.dq_ok.getD false)) <;> simp [hdq]

/-- Witness for C10 at a concrete log. -/
theorem reflect_saved_no_profile_witness :
    (reflect logSavedNoProfile).1 = false ∧
    "Output has zero rows." ∈ (reflect logSavedNoProfile).2 :=
  reflect_saved_no_profile logSavedNoProfile (by decide) (by decide)

/-! ### C4 -/

/-- C4 counterexample: the expression `df._private` carries a
conventionally private single-underscore attribute, yet `_SafeVisitor`
validation accepts it — only double-underscore attribute names are
rejected, so the claim that other conventionally private names raise
`DisallowedAttribute` fails here. -/
theorem single_underscore_attr_passes_validation :
    validateExpr ((safeLocalsBase tRev).map Prod.fst)
      (.attr (.name "df") "_private") = .ok () := by decide

/-- C4 amended: sandbox validation rejects an attribute access with
`DisallowedAttribute` before any evaluation exactly when the attribute
name starts with a double underscore; any other attribute name (single
underscore included) passes the attribute check and validation
continues into the accessed value. -/
theorem attr_rejected_iff_dunder (locals : List (String × Value))
    (f : List (String × Value) → Expr → Except SErr Value)
    (e : Expr) (a : String) :
    (strStartsWith a ("__") = true →
      safeEvalWith f locals (.attr e a) = .error .dunderAttribute) ∧
    (strStartsWith a ("__") = false →
      validateExpr (locals.map Prod.fst) (.attr e a) =
        validateExpr (locals.map Prod.fst) e) := by
  constructor
  · intro h
    simp [safeEvalWith, validateExpr, h]
  · intro h
    simp [validateExpr, h]

/-- Witness for C4's amended theorem: a dunder access is rejected before
evaluation (even under an evaluator that always succeeds), and a
single-underscore access validates exactly like its base expression. -/
theorem attr_rejected_iff_dunder_witness :
    safeEvalWith evalStub (safeLocalsBase tRev) (.attr (.name "df") "__class__") =
      .error .dunderAttribute ∧
    validateExpr ((safeLocalsBase tRev).map Prod.fst) (.attr (.name "df") "_p") =
      validateExpr ((safeLocalsBase tRev).map Prod.fst) (.name "df") :=
  ⟨(attr_rejected_iff_dunder (safeLocalsBase tRev) evalStub (.name "df") "__class__").1
      (by decide),
   (attr_rejected_iff_dunder (safeLocalsBase tRev) evalStub (.name "df") "_p").2
      (by decide)⟩

end DataOps

namespace DataOps

/-! ### C2 -/

/-- Sequencing after a successful `Except` computation runs the rest. -/
theorem except_bind_ok {ε α β : Type} (a : α) (f : α → Except ε β) :
    (Except.ok a >>= f) = f a := rfl

/-- Sequencing after a failed `Except` computation keeps the error. -/
theorem except_bind_error {ε α β : Type} (e : ε) (f : α → Except ε β) :
    (Except.error e >>= f) = Except.error e := rfl

/-- Validation failure propagates through a `do` sequence of two
validations when either part fails. -/
theorem validate_seq_fails {allowed : List String} {l r : Expr}
    (h : (∃ ve, validateExpr allowed l = .error ve) ∨
         (∃ ve, validateExpr allowed r = .error ve)) :
    ∃ ve, (do validateExpr allowed l; validateExpr allowed r :
      Except SErr Unit) = .error ve := by
  cases hl : validateExpr allowed l with
  | error ve => exact ⟨ve, by simp [hl, except_bind_error]⟩
  | ok u =>
      rcases h with ⟨ve, hv⟩ | ⟨ve, hv⟩
      · rw [hl] at hv
        cases hv
      · cases u
        exact ⟨ve, by simp [hl, hv, except_bind_ok]⟩

mutual

/-- An expression containing a call with a non-allow-listed root never
passes `_SafeVisitor` validation (though the reported violation may be
an earlier one in traversal order). -/
theorem validate_fails_of_hasCall (allowed : List String) :
    (e : Expr) → hasDisallowedCall allowed e = true →
    ∃ ve, validateExpr allowed e = .error ve
  | .lit _, h => by simp [hasDisallowedCall] at h
  | .listLit xs, h => by
      obtain ⟨ve, hv⟩ := validateList_fails_of_hasCall allowed xs
        (by simpa [hasDisallowedCall] using h)
      exact ⟨ve, by simpa [validateExpr] using hv⟩
  | .name s, h => by simp [hasDisallowedCall] at h
  | .attr e a, h => by
      by_cases hd : strStartsWith a ("__") = true
      · exact ⟨.dunderAttribute, by simp [validateExpr, hd]⟩
      · obtain ⟨ve, hv⟩ := validate_fails_of_hasCall allowed e
          (by simpa [hasDisallowedCall] using h)
        refine ⟨ve, ?_⟩
        simpa [validateExpr, hd] using hv
  | .subscript e i, h => by
      have h2 : hasDisallowedCall allowed e = true ∨
          hasDisallowedCall allowed i = true := by
        simpa [hasDisallowedCall] using h
      have hor : (∃ ve, validateExpr allowed e = .error ve) ∨
          (∃ ve, validateExpr allowed i = .error ve) := by
        rcases h2 with h2 | h2
        · exact Or.inl (validate_fails_of_hasCall allowed e h2)
        · exact Or.inr (validate_fails_of_hasCall allowed i h2)
      obtain ⟨ve, hv⟩ := validate_seq_fails hor
      exact ⟨ve, by simpa [validateExpr] using hv⟩
  | .call f args, h => by
      cases hr : getRootName f with
      | none => exact ⟨.disallowedCall none, by simp [validateExpr, hr]⟩
      | some root =>
          by_cases hm : root ∈ allowed
          · have h2 : hasDisallowedCall allowed f = true ∨
                hasDisallowedCallList allowed args = true := by
              have := h
              simp [hasDisallowedCall, hr, hm] at this
              exact this
            cases hf : validateExpr allowed f with
            | error ve => exact ⟨ve, by simp [validateExpr, hr, hm, hf, except_bind_error]⟩
            | ok u =>
                cases u
                rcases h2 with h2 | h2
                · obtain ⟨ve, hv⟩ := validate_fails_of_hasCall allowed f h2
                  rw [hf] at hv
                  cases hv
                · obtain ⟨ve, hv⟩ := validateList_fails_of_hasCall allowed args h2
                  exact ⟨ve, by simp [validateExpr, hr, hm, hf, hv, except_bind_ok]⟩
          · exact ⟨.disallowedCall (some root), by simp [validateExpr, hr, hm]⟩
  | .binop op l r, h => by
      have h2 : hasDisallowedCall allowed l = true ∨
          hasDisallowedCall allowed r = true := by
        simpa [hasDisallowedCall] using h
      have hor : (∃ ve, validateExpr allowed l = .error ve) ∨
          (∃ ve, validateExpr allowed r = .error ve) := by
        rcases h2 with h2 | h2
        · exact Or.inl (validate_fails_of_hasCall allowed l h2)
        · exact Or.inr (validate_fails_of_hasCall allowed r h2)
      obtain ⟨ve, hv⟩ := validate_seq_fails hor
      exact ⟨ve, by simpa [validateExpr] using hv⟩
  | .cmp op l r, h => by
      have h2 : hasDisallowedCall allowed l = true ∨
          hasDisallowedCall allowed r = true := by
        simpa [hasDisallowedCall] using h
      have hor : (∃ ve, validateExpr allowed l = .error ve) ∨
          (∃ ve, validateExpr allowed r = .error ve) := by
        rcases h2 with h2 | h2
        · exact Or.inl (validate_fails_of_hasCall allowed l h2)
        · exact Or.inr (validate_fails_of_hasCall allowed r h2)
      obtain ⟨ve, hv⟩ := validate_seq_fails hor
      exact ⟨ve, by simpa [validateExpr] using hv⟩
  | .boolAnd l r, h => by
      have h2 : hasDisallowedCall allowed l = true ∨
          hasDisallowedCall allowed r = true := by
        simpa [hasDisallowedCall] using h
      have hor : (∃ ve, validateExpr allowed l = .error ve) ∨
          (∃ ve, validateExpr allowed r = .error ve) := by
        rcases h2 with h2 | h2
        · exact Or.inl (validate_fails_of_hasCall allowed l h2)
        · exact Or.inr (validate_fails_of_hasCall allowed r h2)
      obtain ⟨ve, hv⟩ := validate_seq_fails hor
      exact ⟨ve, by simpa [validateExpr] using hv⟩
  | .boolOr l r, h => by
      have h2 : hasDisallowedCall allowed l = true ∨
          hasDisallowedCall allowed r = true := by
        simpa [hasDisallowedCall] using h
      have hor : (∃ ve, validateExpr allowed l = .error ve) ∨
          (∃ ve, validateExpr allowed r = .error ve) := by
        rcases h2 with h2 | h2
        · exact Or.inl (validate_fails_of_hasCall allowed l h2)
        · exact Or.inr (validate_fails_of_hasCall allowed r h2)
      obtain ⟨ve, hv⟩ := validate_seq_fails hor
      exact ⟨ve, by simpa [validateExpr] using hv⟩
  | .unaryNot e, h => by
      obtain ⟨ve, hv⟩ := validate_fails_of_hasCall allowed e
        (by simpa [hasDisallowedCall] using h)
      exact ⟨ve, by simpa [validateExpr] using hv⟩
  | .lam body, h => ⟨.lambdaNotAllowed, by simp [validateExpr]⟩
  | .listComp body, h => ⟨.comprehensionNotAllowed, by simp [validateExpr]⟩
  | .genExp body, h => ⟨.comprehensionNotAllowed, by simp [validateExpr]⟩

/-- List version of `validate_fails_of_hasCall`. -/
theorem validateList_fails_of_hasCall (allowed : List String) :
    (es : ExprList) → hasDisallowedCallList allowed es = true →
    ∃ ve, validateList allowed es = .error ve
  | .nil, h => by simp [hasDisallowedCallList] at h
  | .cons e es, h => by
      have h2 : hasDisallowedCall allowed e = true ∨
          hasDisallowedCallList allowed es = true := by
        simpa [hasDisallowedCallList] using h
      cases he : validateExpr allowed e with
      | error ve => exact ⟨ve, by simp [validateList, he, except_bind_error]⟩
      | ok u =>
          cases u
          rcases h2 with h2 | h2
          · obtain ⟨ve, hv⟩ := validate_fails_of_hasCall allowed e h2
            rw [he] at hv
            cases hv
          · obtain ⟨ve, hv⟩ := validateList_fails_of_hasCall allowed es h2
            exact ⟨ve, by simp [validateList, he, hv, except_bind_ok]⟩

end

end DataOps

namespace DataOps

/-- C2 counterexample: `foo + bar(1)` contains a call whose root `bar`
is outside the allow-list, yet `safe_eval` reports the disallowed bare
name `foo` (the first violation in the visitor's traversal order), not
`DisallowedCall` — so the claim's "raises DisallowedCall" fails as a
universal statement, while the rejection-before-evaluation part holds. -/
theorem disallowed_name_reported_before_call :
    safeEval (safeLocalsBase tRev) eNameThenCall =
      .error (.disallowedName "foo") ∧
    hasDisallowedCall ((safeLocalsBase tRev).map Prod.fst) eNameThenCall = true ∧
    isDisallowedCallErr (safeEval (safeLocalsBase tRev) eNameThenCall) = false := by
  refine ⟨by decide, by decide, by decide⟩

/-- C2 amended: for every binding set and every expression containing a
call whose root identifier is outside the allow-list, validation of the
full tree fails before any evaluation begins — `safe_eval` returns the
validation error no matter which evaluator would have been used, so no
part of the expression is ever executed.  (The reported error is
`DisallowedCall` when the call is the first violation the visitor
meets; an earlier violation, e.g. a disallowed bare name, is reported
instead.) -/
theorem safeEval_rejects_before_eval (locals : List (String × Value)) (e : Expr)
    (h : hasDisallowedCall (locals.map Prod.fst) e = true) :
    ∃ ve, validateExpr (locals.map Prod.fst) e = .error ve ∧
      ∀ f, safeEvalWith f locals e = .error ve := by
  obtain ⟨ve, hv⟩ := validate_fails_of_hasCall (locals.map Prod.fst) e h
  exact ⟨ve, hv, fun f => by simp [safeEvalWith, hv]⟩

/-- Witness for C2's amended theorem: `foo(revenue)` is rejected with
`DisallowedCall` and even an always-succeeding evaluator is never
consulted. -/
theorem safeEval_rejects_before_eval_witness :
    safeEvalWith evalStub (safeLocalsBase tRev) eBadCall =
      .error (.disallowedCall (some "foo")) := by
  obtain ⟨ve, hv, hall⟩ :=
    safeEval_rejects_before_eval (safeLocalsBase tRev) eBadCall (by decide)
  have hc : validateExpr ((safeLocalsBase tRev).map Prod.fst) eBadCall =
      .error (.disallowedCall (some "foo")) := by decide
  have hve : SErr.disallowedCall (some "foo") = ve := by
    injection hc.symm.trans hv
  rw [← hve] at hall
  exact hall evalStub

/-! ### C1 -/

/-- C1 counterexample: a filter expression calling the non-allow-listed
function `foo` is *not* rejected by the sandbox: the filter stage hands
it to pandas `.query`, whose name resolution raises
`UndefinedVariableError` for `foo` — not `DisallowedCall` — even though
the sandbox validator (shown in the third conjunct) would have rejected
the same expression with `DisallowedCall`. -/
theorem filter_disallowed_call_not_sandboxed :
    transform tRev { filter := some eBadCall } none =
      .error (.undefinedVariable "foo") ∧
    isDisallowedCallErr (transform tRev { filter := some eBadCall } none) = false ∧
    validateExpr ((safeLocalsBase tRev).map Prod.fst) eBadCall =
      .error (.disallowedCall (some "foo")) := by
  refine ⟨by decide, by decide, by decide⟩

/-- C1 amended: the filter stage of `transform` evaluates the
expression with pandas `.query(..., engine="python")` — bare
identifiers resolve to the current table's columns and no allow-list
validation runs — the result must be a boolean vector over the table's
rows, and rows where it is true are kept. -/
theorem filter_stage_query_semantics (t : Table) (e : Expr) (mask : List Cell)
    (hq : queryEval t e = .ok (.series mask))
    (hlen : mask.length = nrows t) (hb : allBool mask = true) :
    transform t { filter := some e } none = .ok (keepRows t mask) := by
  simp [transform, filterStage, hq, hlen, hb, except_bind_ok]

/-- Witness for C1's amended theorem: `revenue >= 0` over the concrete
revenue table keeps exactly the rows whose mask cell is true (the null
revenue compares false and is dropped). -/
theorem filter_stage_query_semantics_witness :
    transform tRev { filter := some eRevFilter } none =
      .ok (keepRows tRev [Cell.bool true, Cell.bool false, Cell.bool false]) :=
  filter_stage_query_semantics tRev eRevFilter
    [Cell.bool true, Cell.bool false, Cell.bool false]
    (by decide) (by decide) (by decide)

end DataOps

namespace DataOps

/-! ### C6 -/

/-- Appending through a left fold is concatenation with the flattened
per-element contributions. -/
theorem foldl_append_eq_flatMap {α β : Type} (f : α → List β) :
    ∀ (l : List α) (acc : List β),
      l.foldl (fun acc x => acc ++ f x) acc = acc ++ l.flatMap f
  | [], acc => by simp
  | x :: xs, acc => by
    rw [List.foldl_cons, foldl_append_eq_flatMap f xs (acc ++ f x)]
    simp

/-- C6: `dq_check` reports its issues in a deterministic order — the
`non_null` contributions first, then `unique`, then `range`, then
`allowed_values`, each category in ruleset declaration order; a rule
naming a missing column contributes its "Column missing" issue while
checking still proceeds over every remaining rule (every rule's
contribution appears, independent of earlier failures); and the
returned ok flag is true exactly when the issue list is empty. -/
theorem dq_check_deterministic_report (df : Table) (rules : DQRules) :
    (dq_check df rules).2 =
      rules.non_null.flatMap (nonNullCheck df) ++
      rules.unique.flatMap (uniqueCheck df) ++
      rules.range.flatMap (fun p => rangeCheck df p.1 p.2) ++
      rules.allowed_values.flatMap (fun p => allowedCheck df p.1 p.2) ∧
    ((dq_check df rules).1 = true ↔ (dq_check df rules).2 = []) ∧
    (∀ c ∈ rules.non_null, lookupCol df c = none →
      ("Column missing for non_null: " ++ c) ∈ (dq_check df rules).2) := by
  have h2 : (dq_check df rules).2 =
      rules.non_null.flatMap (nonNullCheck df) ++
      rules.unique.flatMap (uniqueCheck df) ++
      rules.range.flatMap (fun p => rangeCheck df p.1 p.2) ++
      rules.allowed_values.flatMap (fun p => allowedCheck df p.1 p.2) := by
    unfold dq_check
    simp only [foldl_append_eq_flatMap]
    simp [List.append_assoc]
  refine ⟨h2, ?_, ?_⟩
  · have h1 : (dq_check df rules).1 =
        decide ((dq_check df rules).2.length = 0) := by
      unfold dq_check
      simp
    rw [h1]
    simp [List.length_eq_zero]
  · intro c hc hnone
    rw [h2]
    have : ("Column missing for non_null: " ++ c) ∈
        rules.non_null.flatMap (nonNullCheck df) := by
      rw [List.mem_flatMap]
      exact ⟨c, hc, by simp [nonNullCheck, hnone]⟩
    simp [this]

end DataOps

namespace DataOps

/-- Witness for C6 at a concrete table and ruleset: the missing column
`zz` contributes its issue while the later `unique` rule still runs. -/
theorem dq_check_deterministic_report_witness :
    ("Column missing for non_null: " ++ "zz") ∈
      (dq_check tNullKey { non_null := ["v", "zz"], unique := ["k"] }).2 :=
  (dq_check_deterministic_report tNullKey
    { non_null := ["v", "zz"], unique := ["k"] }).2.2 "zz" (by decide) (by decide)

/-! ### C3 — lemmas about the derive stage -/

/-- Inserting a key makes it found with the inserted value. -/
theorem lookupVal_dictInsert_self (m : List (String × Value)) (k : String)
    (v : Value) : lookupVal (dictInsert m k v) k = some v := by
  induction m with
  | nil => simp [dictInsert, lookupVal]
  | cons p rest ih =>
      obtain ⟨k2, v2⟩ := p
      by_cases hk : k2 = k
      · simp [dictInsert, hk, lookupVal]
      · simp [dictInsert, hk, lookupVal, ih]

/-- Inserting one key leaves every other key's lookup unchanged. -/
theorem lookupVal_dictInsert_other (m : List (String × Value)) (k k2 : String)
    (v : Value) (h : k ≠ k2) :
    lookupVal (dictInsert m k v) k2 = lookupVal m k2 := by
  induction m with
  | nil => simp [dictInsert, lookupVal, h]
  | cons p rest ih =>
      obtain ⟨k0, v0⟩ := p
      by_cases hk : k0 = k
      · subst hk
        simp [dictInsert, lookupVal, h]
      · simp [dictInsert, hk, lookupVal, ih]

/-- Every derive entry's expression was evaluated (successfully)
against the fixed locals when the build loop succeeds. -/
theorem buildNewCols_all_ok (locals : List (String × Value)) :
    ∀ (ds : List DeriveItem) (acc m : List (String × Value)),
      buildNewCols locals ds acc = .ok m →
      ∀ d ∈ ds, ∃ v, safeEval locals d.expr = .ok v
  | [], acc, m, _, d, hd => by cases hd
  | d0 :: ds, acc, m, hb, d, hd => by
      cases hv : safeEval locals d0.expr with
      | error e =>
          rw [buildNewCols, hv] at hb
          cases hb
      | ok v =>
          rw [buildNewCols, hv, except_bind_ok] at hb
          rcases List.mem_cons.mp hd with hd | hd
          · exact hd ▸ ⟨v, hv⟩
          · exact buildNewCols_all_ok locals ds _ m hb d hd

/-- A key not named by any remaining derive entry keeps its
accumulator binding through the rest of the build loop. -/
theorem buildNewCols_lookup_preserved (locals : List (String × Value))
    (k : String) :
    ∀ (ds : List DeriveItem) (acc m : List (String × Value)),
      buildNewCols locals ds acc = .ok m →
      k ∉ ds.map DeriveItem.name →
      lookupVal m k = lookupVal acc k
  | [], acc, m, hb, _ => by
      rw [buildNewCols] at hb
      cases hb
      rfl
  | d0 :: ds, acc, m, hb, hk => by
      cases hv : safeEval locals d0.expr with
      | error e =>
          rw [buildNewCols, hv] at hb
          cases hb
      | ok v =>
          rw [buildNewCols, hv, except_bind_ok] at hb
          have hk0 : d0.name ≠ k := by
            intro he
            exact hk (by simp [he.symm])
          have hks : k ∉ ds.map DeriveItem.name := by
            intro hmem
            exact hk (by simp [hmem])
          rw [buildNewCols_lookup_preserved locals k ds _ m hb hks]
          exact lookupVal_dictInsert_other acc d0.name k v hk0

/-- The build loop binds a derive entry's name to its own expression's
value whenever no later entry reuses the name (later duplicates win). -/
theorem buildNewCols_last_value (locals : List (String × Value)) :
    ∀ (l1 : List DeriveItem) (d : DeriveItem) (l2 : List DeriveItem)
      (acc m : List (String × Value)),
      buildNewCols locals (l1 ++ d :: l2) acc = .ok m →
      d.name ∉ l2.map DeriveItem.name →
      ∃ v, safeEval locals d.expr = .ok v ∧ lookupVal m d.name = some v
  | [], d, l2, acc, m, hb, hlast => by
      rw [List.nil_append] at hb
      cases hv : safeEval locals d.expr with
      | error e =>
          rw [buildNewCols, hv] at hb
          cases hb
      | ok v =>
          rw [buildNewCols, hv, except_bind_ok] at hb
          refine ⟨v, rfl, ?_⟩
          rw [buildNewCols_lookup_preserved locals d.name l2 _ m hb hlast]
          exact lookupVal_dictInsert_self acc d.name v
  | d0 :: l1, d, l2, acc, m, hb, hlast => by
      rw [List.cons_append] at hb
      cases hv : safeEval locals d0.expr with
      | error e =>
          rw [buildNewCols, hv] at hb
          cases hb
      | ok v =>
          rw [buildNewCols, hv, except_bind_ok] at hb
          exact buildNewCols_last_value locals l1 d l2 _ m hb hlast

end DataOps

namespace DataOps

/-- Column names of a cons cell. -/
theorem colNames_cons (x : String × List Cell) (l : Table) :
    colNames (x :: l) = x.1 :: colNames l := rfl

/-- Overwriting existing columns preserves the table's column names
and their positions. -/
theorem updateExisting_names (n : Nat) (m : List (String × Value)) :
    ∀ (t u : List (String × List Cell)),
      updateExisting n m t = .ok u → colNames u = colNames t
  | [], u, h => by
      rw [updateExisting] at h
      cases h
      rfl
  | p :: rest, u, h => by
      cases hl : lookupVal m p.1 with
      | some v =>
          simp only [updateExisting, hl] at h
          cases hc : toColumn n v with
          | error e => simp [hc, except_bind_error] at h
          | ok col =>
              simp only [hc, except_bind_ok] at h
              cases hr : updateExisting n m rest with
              | error e => simp [hr, except_bind_error] at h
              | ok rest2 =>
                  simp only [hr, except_bind_ok, Except.ok.injEq] at h
                  subst h
                  rw [colNames_cons, colNames_cons,
                      updateExisting_names n m rest rest2 hr]
      | none =>
          simp only [updateExisting, hl] at h
          cases hr : updateExisting n m rest with
          | error e => simp [hr, except_bind_error] at h
          | ok rest2 =>
              simp only [hr, except_bind_ok, Except.ok.injEq] at h
              subst h
              rw [colNames_cons, colNames_cons,
                  updateExisting_names n m rest rest2 hr]

/-- A column of the table named in `new_cols` is overwritten with the
coerced new value. -/
theorem updateExisting_overwrites (n : Nat) (m : List (String × Value))
    (k : String) (v : Value) :
    ∀ (t u : List (String × List Cell)) (col0 : List Cell),
      updateExisting n m t = .ok u →
      lookupCol t k = some col0 → lookupVal m k = some v →
      ∃ col, toColumn n v = .ok col ∧ lookupCol u k = some col
  | [], u, col0, h, ht, _ => by simp [lookupCol] at ht
  | p :: rest, u, col0, h, ht, hm => by
      obtain ⟨n0, c0⟩ := p
      by_cases hn : n0 = k
      · subst hn
        simp only [updateExisting, hm] at h
        cases hc : toColumn n v with
        | error e => simp [hc, except_bind_error] at h
        | ok col =>
            simp only [hc, except_bind_ok] at h
            cases hr : updateExisting n m rest with
            | error e => simp [hr, except_bind_error] at h
            | ok rest2 =>
                simp only [hr, except_bind_ok, Except.ok.injEq] at h
                subst h
                exact ⟨col, rfl, by simp [lookupCol]⟩
      · rw [lookupCol, if_neg hn] at ht
        cases hl : lookupVal m n0 with
        | some v0 =>
            simp only [updateExisting, hl] at h
            cases hc : toColumn n v0 with
            | error e => simp [hc, except_bind_error] at h
            | ok col =>
                simp only [hc, except_bind_ok] at h
                cases hr : updateExisting n m rest with
                | error e => simp [hr, except_bind_error] at h
                | ok rest2 =>
                    simp only [hr, except_bind_ok, Except.ok.injEq] at h
                    subst h
                    obtain ⟨col2, hc2, hlk⟩ :=
                      updateExisting_overwrites n m k v rest rest2 col0 hr ht hm
                    exact ⟨col2, hc2, by simp [lookupCol, hn, hlk]⟩
        | none =>
            simp only [updateExisting, hl] at h
            cases hr : updateExisting n m rest with
            | error e => simp [hr, except_bind_error] at h
            | ok rest2 =>
                simp only [hr, except_bind_ok, Except.ok.injEq] at h
                subst h
                obtain ⟨col2, hc2, hlk⟩ :=
                  updateExisting_overwrites n m k v rest rest2 col0 hr ht hm
                exact ⟨col2, hc2, by simp [lookupCol, hn, hlk]⟩

/-- The fresh-column pass binds each listed name to its coerced value
(first occurrence wins, matching association-list lookup). -/
theorem freshColumns_lookup (n : Nat) (k : String) (v : Value) :
    ∀ (l : List (String × Value)) (u : List (String × List Cell)),
      freshColumns n l = .ok u → lookupVal l k = some v →
      ∃ col, toColumn n v = .ok col ∧ lookupCol u k = some col
  | [], u, h, hm => by simp [lookupVal] at hm
  | p :: rest, u, h, hm => by
      obtain ⟨k0, v0⟩ := p
      simp only [freshColumns] at h
      cases hc : toColumn n v0 with
      | error e => simp [hc, except_bind_error] at h
      | ok col =>
          simp only [hc, except_bind_ok] at h
          cases hr : freshColumns n rest with
          | error e => simp [hr, except_bind_error] at h
          | ok rest2 =>
              simp only [hr, except_bind_ok, Except.ok.injEq] at h
              subst h
              by_cases hn : k0 = k
              · subst hn
                rw [lookupVal, if_pos rfl] at hm
                cases hm
                exact ⟨col, hc, by simp [lookupCol]⟩
              · rw [lookupVal, if_neg hn] at hm
                obtain ⟨col2, hc2, hlk⟩ :=
                  freshColumns_lookup n k v rest rest2 hr hm
                exact ⟨col2, hc2, by simp [lookupCol, hn, hlk]⟩

/-- The fresh-column pass emits exactly the listed names, in order. -/
theorem freshColumns_names (n : Nat) :
    ∀ (l : List (String × Value)) (u : List (String × List Cell)),
      freshColumns n l = .ok u → colNames u = l.map Prod.fst
  | [], u, h => by
      rw [freshColumns] at h
      cases h
      rfl
  | p :: rest, u, h => by
      simp only [freshColumns] at h
      cases hc : toColumn n p.2 with
      | error e => simp [hc, except_bind_error] at h
      | ok col =>
          simp only [hc, except_bind_ok] at h
          cases hr : freshColumns n rest with
          | error e => simp [hr, except_bind_error] at h
          | ok rest2 =>
              simp only [hr, except_bind_ok, Except.ok.injEq] at h
              subst h
              rw [colNames_cons, List.map_cons,
                  freshColumns_names n rest rest2 hr]

/-- Filtering by a predicate that holds for a key preserves that key's
first binding. -/
theorem lookupVal_filter_keep (p : String × Value → Bool) (k : String)
    (hp : ∀ v, p (k, v) = true) :
    ∀ (m : List (String × Value)),
      lookupVal (m.filter p) k = lookupVal m k
  | [] => by simp [lookupVal]
  | (k0, v0) :: rest => by
      by_cases hk : k0 = k
      · subst hk
        rw [List.filter_cons, hp v0]
        simp [lookupVal, lookupVal_filter_keep p k0 hp rest]
      · rw [List.filter_cons]
        cases hpv : p (k0, v0) with
        | true =>
            simp [lookupVal, hk, lookupVal_filter_keep p k hp rest]
        | false =>
            simp [lookupVal, hk, lookupVal_filter_keep p k hp rest]

/-- `out.assign(**new_cols)` binds every `new_cols` name to its coerced
value in the result — overwriting an existing column in place, or
appending a new one. -/
theorem assignTable_lookup (t : Table) (m : List (String × Value))
    (t' : Table) (k : String) (v : Value)
    (hb : assignTable t m = .ok t') (hm : lookupVal m k = some v) :
    ∃ col, toColumn (nrows t) v = .ok col ∧ lookupCol t' k = some col := by
  simp only [assignTable] at hb
  cases hu : updateExisting (nrows t) m t with
  | error e => simp [hu, except_bind_error] at hb
  | ok updated =>
      simp only [hu, except_bind_ok] at hb
      cases hf : freshColumns (nrows t)
          (m.filter (fun p => (lookupCol t p.1).isNone)) with
      | error e => simp [hf, except_bind_error] at hb
      | ok freshCols =>
          simp only [hf, except_bind_ok, Except.ok.injEq] at hb
          subst hb
          cases hcase : lookupCol t k with
          | some col0 =>
              obtain ⟨col, hc, hlk⟩ :=
                updateExisting_overwrites (nrows t) m k v t updated col0 hu hcase hm
              exact ⟨col, hc, lookupCol_append_left hlk⟩
          | none =>
              have hupd : lookupCol updated k = none := by
                rw [lookupCol_eq_none_iff, updateExisting_names (nrows t) m t updated hu]
                rw [lookupCol_eq_none_iff] at hcase
                exact hcase
              rw [lookupCol_append_right hupd]
              have hkeep : lookupVal
                  (m.filter (fun p => (lookupCol t p.1).isNone)) k = some v := by
                rw [lookupVal_filter_keep _ k (fun v2 => by simp [hcase]) m]
                exact hm
              obtain ⟨col, hc, hlk⟩ :=
                freshColumns_lookup (nrows t) k v _ freshCols hf hkeep
              exact ⟨col, hc, hlk⟩

/-- The names of an assigned table: the original names (positions
kept) followed by the genuinely new names in `new_cols` order. -/
theorem assignTable_names (t : Table) (m : List (String × Value)) (t' : Table)
    (hb : assignTable t m = .ok t') :
    colNames t' = colNames t ++
      (m.filter (fun p => (lookupCol t p.1).isNone)).map Prod.fst := by
  simp only [assignTable] at hb
  cases hu : updateExisting (nrows t) m t with
  | error e => simp [hu, except_bind_error] at hb
  | ok updated =>
      simp only [hu, except_bind_ok] at hb
      cases hf : freshColumns (nrows t)
          (m.filter (fun p => (lookupCol t p.1).isNone)) with
      | error e => simp [hf, except_bind_error] at hb
      | ok freshCols =>
          simp only [hf, except_bind_ok, Except.ok.injEq] at hb
          subst hb
          have h1 := updateExisting_names (nrows t) m t updated hu
          have h2 := freshColumns_names (nrows t) _ freshCols hf
          calc colNames (updated ++ freshCols)
              = colNames updated ++ colNames freshCols := by simp [colNames]
            _ = _ := by rw [h1, h2]

end DataOps

namespace DataOps

/-- A successful derive stage factors into a successful build loop and
a successful single assignment. -/
theorem deriveStage_ok_elim (t : Table) (ds : List DeriveItem) (t' : Table)
    (h : deriveStage t ds = .ok t') :
    ∃ m, buildNewCols (safeLocalsBase t) ds [] = .ok m ∧
      assignTable t m = .ok t' := by
  simp only [deriveStage] at h
  cases hbm : buildNewCols (safeLocalsBase t) ds [] with
  | error e => simp [hbm, except_bind_error] at h
  | ok m =>
      refine ⟨m, rfl, ?_⟩
      simpa [hbm, except_bind_ok] using h

/-- A derive-only recipe runs exactly the derive stage. -/
theorem transform_derive_only (t : Table) (ds : List DeriveItem)
    (aux : Option (List (String × Table))) :
    transform t { derive := some ds } aux = deriveStage t ds := by
  cases h : deriveStage t ds with
  | error e => simp [transform, h, except_bind_error, except_bind_ok]
  | ok u => simp [transform, h, except_bind_error, except_bind_ok]

/-- C3: when a derive stage succeeds, every derive expression was
evaluated via the Sandbox against bindings fixed to the table as it
existed at the start of the stage (`safeLocalsBase t` binds `df` to the
pre-derive snapshot, so no expression can observe a sibling's newly
derived column, regardless of order), and each derived name — when no
later sibling reuses it — ends up bound in the result to exactly its
own expression's value, merged in the single assignment at the end of
the stage and overwriting any pre-existing column of that name. -/
theorem derive_snapshot_isolated_merge (t : Table) (ds : List DeriveItem)
    (aux : Option (List (String × Table))) (t' : Table)
    (h : transform t { derive := some ds } aux = .ok t') :
    (∀ d ∈ ds, ∃ v, safeEval (safeLocalsBase t) d.expr = .ok v) ∧
    (∀ l1 d l2, ds = l1 ++ d :: l2 → d.name ∉ l2.map DeriveItem.name →
      ∃ v col, safeEval (safeLocalsBase t) d.expr = .ok v ∧
        toColumn (nrows t) v = .ok col ∧ lookupCol t' d.name = some col) := by
  rw [transform_derive_only] at h
  obtain ⟨m, hbm, ham⟩ := deriveStage_ok_elim t ds t' h
  refine ⟨fun d hd => buildNewCols_all_ok (safeLocalsBase t) ds [] m hbm d hd, ?_⟩
  intro l1 d l2 hds hlast
  subst hds
  obtain ⟨v, hv, hlk⟩ :=
    buildNewCols_last_value (safeLocalsBase t) l1 d l2 [] m hbm hlast
  obtain ⟨col, hc, hl⟩ := assignTable_lookup t m t' d.name v ham hlk
  exact ⟨v, col, hv, hc, hl⟩

/-- Witness for C3: deriving `r1 = df['revenue'] + 1` next to a second
derived column over the concrete revenue table binds `r1` to the value
its expression has on the pre-derive snapshot. -/
theorem derive_snapshot_isolated_merge_witness :
    ∃ v col, safeEval (safeLocalsBase tRev) eRevPlusOne = .ok v ∧
      toColumn (nrows tRev) v = .ok col ∧
      lookupCol tDerived "r1" = some col :=
  (derive_snapshot_isolated_merge tRev
      [⟨"r1", eRevPlusOne⟩, ⟨"a2", eAbsRev⟩] none tDerived (by decide)).2
    [] ⟨"r1", eRevPlusOne⟩ [⟨"a2", eAbsRev⟩] rfl (by decide)

end DataOps

namespace DataOps

/-! ### C9 -/

/-- C9: with two derive entries of the same name, both expressions are
still evaluated against the pre-derive snapshot — an error in either
one aborts the stage, even in the earlier entry whose value would have
been overwritten — and on success the output table holds exactly one
column of that name, carrying the later entry's value; no
duplicate-name error exists. -/
theorem derive_duplicate_last_wins (t : Table) (n : String) (e1 e2 : Expr)
    (hcnt : countColName t n ≤ 1) :
    (∀ err, safeEval (safeLocalsBase t) e1 = .error err →
      transform t { derive := some [⟨n, e1⟩, ⟨n, e2⟩] } none = .error err) ∧
    (∀ v1 err, safeEval (safeLocalsBase t) e1 = .ok v1 →
      safeEval (safeLocalsBase t) e2 = .error err →
      transform t { derive := some [⟨n, e1⟩, ⟨n, e2⟩] } none = .error err) ∧
    (∀ v1 v2 t', safeEval (safeLocalsBase t) e1 = .ok v1 →
      safeEval (safeLocalsBase t) e2 = .ok v2 →
      transform t { derive := some [⟨n, e1⟩, ⟨n, e2⟩] } none = .ok t' →
      ∃ col2, toColumn (nrows t) v2 = .ok col2 ∧
        lookupCol t' n = some col2 ∧ countColName t' n = 1) := by
  refine ⟨?_, ?_, ?_⟩
  · intro err h1
    rw [transform_derive_only]
    simp [deriveStage, buildNewCols, h1, except_bind_error]
  · intro v1 err h1 h2
    rw [transform_derive_only]
    simp [deriveStage, buildNewCols, h1, h2, except_bind_ok, except_bind_error]
  · intro v1 v2 t' h1 h2 ht
    rw [transform_derive_only] at ht
    obtain ⟨m, hbm, ham⟩ := deriveStage_ok_elim t _ t' ht
    simp only [buildNewCols, h1, h2, except_bind_ok, dictInsert,
      if_pos rfl, Except.ok.injEq] at hbm
    subst hbm
    obtain ⟨col2, hc2, hl2⟩ :=
      assignTable_lookup t [(n, v2)] t' n v2 ham (by simp [lookupVal])
    refine ⟨col2, hc2, hl2, ?_⟩
    have hnames := assignTable_names t [(n, v2)] t' ham
    unfold countColName
    rw [hnames, List.count_append]
    cases hlc : lookupCol t n with
    | none =>
        have h0 : List.count n (colNames t) = 0 := by
          rw [List.count_eq_zero]
          rw [lookupCol_eq_none_iff] at hlc
          exact hlc
        simp [h0, hlc, List.filter_cons]
    | some col0 =>
        have hmem : n ∈ colNames t := lookupCol_mem_of_some hlc
        have h1le : 1 ≤ List.count n (colNames t) := by
          rw [Nat.one_le_iff_ne_zero]
          intro h0
          rw [List.count_eq_zero] at h0
          exact h0 hmem
        have hone : List.count n (colNames t) = 1 := by
          unfold countColName at hcnt
          omega
        simp [hone, hlc, List.filter_cons]

/-- Witness for C9: deriving `revenue` twice over the concrete revenue
table keeps a single `revenue` column holding the second expression's
value. -/
theorem derive_duplicate_last_wins_witness :
    ∃ col2, toColumn (nrows tRev) (Value.scalar (Cell.int 7)) = .ok col2 ∧
      lookupCol [("revenue", [Cell.int 7, Cell.int 7, Cell.int 7])] "revenue" =
        some col2 ∧
      countColName [("revenue", [Cell.int 7, Cell.int 7, Cell.int 7])] "revenue" = 1 :=
  (derive_duplicate_last_wins tRev "revenue" eRevPlusOne (.lit (.int 7))
      (by decide)).2.2
    (Value.series [Cell.int 6, Cell.int (-1), Cell.null])
    (Value.scalar (Cell.int 7))
    [("revenue", [Cell.int 7, Cell.int 7, Cell.int 7])]
    (by decide) (by decide) (by decide)

end DataOps

namespace DataOps

/-! ### C5 — lemmas about the groupby stage -/

/-- Deduplication keeps every element not already seen. -/
theorem mem_firstDedupAux {α : Type} [DecidableEq α] (x : α) :
    ∀ (seen l : List α), x ∈ l → x ∉ seen → x ∈ firstDedupAux seen l
  | seen, [], hx, _ => by cases hx
  | seen, y :: ys, hx, hseen => by
      rw [firstDedupAux]
      by_cases hy : y ∈ seen
      · rw [if_pos hy]
        rcases List.mem_cons.mp hx with rfl | hx2
        · exact absurd hy hseen
        · exact mem_firstDedupAux x seen ys hx2 hseen
      · rw [if_neg hy]
        rcases List.mem_cons.mp hx with rfl | hx2
        · exact List.mem_cons_self x _
        · by_cases hxy : x = y
          · subst hxy
            exact List.mem_cons_self x _
          · refine List.mem_cons_of_mem y ?_
            refine mem_firstDedupAux x (y :: seen) ys hx2 ?_
            simp [hxy, hseen]

/-- Every deduplicated element comes from the input list. -/
theorem firstDedupAux_subset {α : Type} [DecidableEq α] (x : α) :
    ∀ (seen l : List α), x ∈ firstDedupAux seen l → x ∈ l
  | seen, [], hx => by
      rw [firstDedupAux] at hx
      cases hx
  | seen, y :: ys, hx => by
      rw [firstDedupAux] at hx
      by_cases hy : y ∈ seen
      · rw [if_pos hy] at hx
        exact List.mem_cons_of_mem y (firstDedupAux_subset x seen ys hx)
      · rw [if_neg hy] at hx
        rcases List.mem_cons.mp hx with rfl | hx2
        · exact List.mem_cons_self x _
        · exact List.mem_cons_of_mem y (firstDedupAux_subset x (y :: seen) ys hx2)

/-- Deduplication yields no duplicates and avoids the seen set. -/
theorem firstDedupAux_nodup {α : Type} [DecidableEq α] :
    ∀ (seen l : List α),
      (firstDedupAux seen l).Nodup ∧ ∀ x ∈ firstDedupAux seen l, x ∉ seen
  | seen, [] => by
      rw [firstDedupAux]
      exact ⟨List.nodup_nil, by simp⟩
  | seen, y :: ys => by
      rw [firstDedupAux]
      by_cases hy : y ∈ seen
      · rw [if_pos hy]
        exact firstDedupAux_nodup seen ys
      · rw [if_neg hy]
        obtain ⟨hnd, hout⟩ := firstDedupAux_nodup (y :: seen) ys
        constructor
        · rw [List.nodup_cons]
          refine ⟨fun hmem => ?_, hnd⟩
          exact (hout y hmem) (List.mem_cons_self y seen)
        · intro x hx
          rcases List.mem_cons.mp hx with rfl | hx2
          · exact hy
          · intro hxs
            exact (hout x hx2) (List.mem_cons_of_mem y hxs)

/-- Membership survives deduplication. -/
theorem mem_firstDedup {α : Type} [DecidableEq α] {x : α} {l : List α}
    (h : x ∈ l) : x ∈ firstDedup l :=
  mem_firstDedupAux x [] l h (by simp)

/-- The deduplicated list has no duplicates. -/
theorem firstDedup_nodup {α : Type} [DecidableEq α] (l : List α) :
    (firstDedup l).Nodup :=
  (firstDedupAux_nodup [] l).1

/-- Every key tuple has one component per key column. -/
theorem allKeys_length (t : Table) (bys : List String) :
    ∀ k ∈ allKeys t bys, k.length = bys.length := by
  intro k hk
  rw [allKeys] at hk
  obtain ⟨i, _, rfl⟩ := List.mem_map.mp hk
  simp

/-- Looking up the `j`-th name of a nodup name list in the built table
returns the column of `j`-th row components. -/
theorem lookupCol_buildTableAux (rows : List (List Cell)) :
    ∀ (names : List String) (j0 j : Nat) (c : String),
      names.Nodup → names.get? j = some c →
      lookupCol (buildTableAux j0 rows names) c =
        some (rows.map (fun r => r.getD (j0 + j) Cell.null))
  | [], j0, j, c, _, hj => by simp at hj
  | n :: ns, j0, j, c, hnd, hj => by
      cases j with
      | zero =>
          rw [List.get?_cons_zero, Option.some.injEq] at hj
          subst hj
          rw [buildTableAux, lookupCol, if_pos rfl]
          simp
      | succ j2 =>
          have hj2 : ns.get? j2 = some c := by simpa using hj
          have hcns : c ∈ ns := List.get?_mem hj2
          have hnc : n ≠ c := by
            intro he
            subst he
            exact (List.nodup_cons.mp hnd).1 hcns
          rw [buildTableAux, lookupCol, if_neg hnc]
          rw [lookupCol_buildTableAux rows ns (j0 + 1) j2 c
                (List.nodup_cons.mp hnd).2 hj2]
          have harith : j0 + 1 + j2 = j0 + (j2 + 1) := by omega
          rw [harith]

/-- A function agreeing with a list on positions maps `range` onto it. -/
theorem range_map_eq {α : Type} (l : List α) (f : Nat → α)
    (h : ∀ (i : Nat) (hi : i < l.length), f i = l.get ⟨i, hi⟩) :
    (List.range l.length).map f = l := by
  apply List.ext_get
  · simp
  · intro n h1 h2
    have hn : n < l.length := by simpa using h1
    have : (List.range l.length).get ⟨n, by simpa using h1⟩ = n := by simp
    simp only [List.get_map]
    rw [this, h n hn]

end DataOps

namespace DataOps

/-- A successful groupby stage has a non-empty, duplicate-free key
list and produces the key columns of the distinct key tuples followed
by the aggregate columns. -/
theorem groupbyStage_ok_elim (t : Table) (g : GroupSpec) (t' : Table)
    (h : groupbyStage t g = .ok t') :
    g.by_ ≠ [] ∧ g.by_.Nodup ∧
    ∃ aggCols,
      buildAggCols t (allKeys t g.by_) (firstDedup (allKeys t g.by_)) g.agg =
        .ok aggCols ∧
      t' = buildTable g.by_ (firstDedup (allKeys t g.by_)) ++ aggCols := by
  unfold groupbyStage at h
  by_cases h1 : g.by_ = []
  · rw [if_pos h1] at h
    cases h
  · rw [if_neg h1] at h
    by_cases h2 : ¬g.by_.Nodup
    · rw [if_pos h2] at h
      cases h
    · rw [if_neg h2] at h
      rw [not_not] at h2
      cases h3 : g.by_.find? (fun c => (lookupCol t c).isNone) with
      | some c =>
          rw [h3] at h
          cases h
      | none =>
          rw [h3] at h
          cases h4 : g.agg.find?
              (fun p => (lookupCol t p.1).isNone || p.1 ∈ g.by_) with
          | some p =>
              rw [h4] at h
              cases h
          | none =>
              rw [h4] at h
              cases h5 : buildAggCols t (allKeys t g.by_)
                  (firstDedup (allKeys t g.by_)) g.agg with
              | error e =>
                  rw [h5] at h
                  cases h
              | ok aggCols =>
                  rw [h5] at h
                  cases h
                  exact ⟨h1, h2, aggCols, rfl, rfl⟩

/-- A groupby-only recipe runs exactly the groupby stage. -/
theorem transform_groupby_only (t : Table) (g : GroupSpec)
    (aux : Option (List (String × Table))) :
    transform t { groupby := some g } aux = groupbyStage t g := by
  cases h : groupbyStage t g with
  | error e => simp [transform, h, except_bind_error, except_bind_ok]
  | ok u => simp [transform, h, except_bind_error, except_bind_ok]

/-- C5: when a groupby stage succeeds, the output has exactly one row
per distinct key tuple of the input — the output's key tuples are the
input's key tuples deduplicated (first appearance first), duplicate
free — and every key tuple of the input, null components included,
appears among the output's key tuples: rows whose keys contain null
form their own group instead of being dropped (`dropna=False`). -/
theorem groupby_keeps_null_key_groups (t : Table) (g : GroupSpec)
    (aux : Option (List (String × Table))) (t' : Table)
    (h : transform t { groupby := some g } aux = .ok t') :
    allKeys t' g.by_ = firstDedup (allKeys t g.by_) ∧
    (∀ k ∈ allKeys t g.by_, k ∈ allKeys t' g.by_) ∧
    (allKeys t' g.by_).Nodup := by
  rw [transform_groupby_only] at h
  obtain ⟨hne, hnd, aggCols, hagg, rfl⟩ := groupbyStage_ok_elim t g _ h
  have hsub : ∀ k ∈ firstDedup (allKeys t g.by_), k ∈ allKeys t g.by_ :=
    fun k hk => firstDedupAux_subset k [] (allKeys t g.by_) hk
  have hklen : ∀ k ∈ allKeys t g.by_, k.length = g.by_.length :=
    allKeys_length t g.by_
  have hrows : nrows (buildTable g.by_ (firstDedup (allKeys t g.by_)) ++ aggCols) =
      (firstDedup (allKeys t g.by_)).length := by
    cases hby : g.by_ with
    | nil => exact absurd hby hne
    | cons c0 rest => simp [buildTable, buildTableAux, nrows]
  have hpoint : ∀ (i : Nat) (hi : i < (firstDedup (allKeys t g.by_)).length),
      g.by_.map (fun c =>
        getCell (buildTable g.by_ (firstDedup (allKeys t g.by_)) ++ aggCols) c i) =
      (firstDedup (allKeys t g.by_)).get ⟨i, hi⟩ := by
    intro i hi
    have hleni : ((firstDedup (allKeys t g.by_)).get ⟨i, hi⟩).length =
        g.by_.length :=
      hklen _ (hsub _ (List.get_mem (firstDedup (allKeys t g.by_)) i hi))
    apply List.ext_get
    · simpa using hleni.symm
    · intro j hj1 hj2
      have hjb : j < g.by_.length := by simpa using hj1
      have hget : g.by_.get? j = some (g.by_.get ⟨j, hjb⟩) :=
        List.get?_eq_get hjb
      have hlk : lookupCol (buildTable g.by_ (firstDedup (allKeys t g.by_)))
          (g.by_.get ⟨j, hjb⟩) =
          some ((firstDedup (allKeys t g.by_)).map
            (fun r => r.getD (0 + j) Cell.null)) :=
        lookupCol_buildTableAux (firstDedup (allKeys t g.by_)) g.by_ 0 j
          (g.by_.get ⟨j, hjb⟩) hnd hget
      have hlk2 : lookupCol
          (buildTable g.by_ (firstDedup (allKeys t g.by_)) ++ aggCols)
          (g.by_.get ⟨j, hjb⟩) =
          some ((firstDedup (allKeys t g.by_)).map
            (fun r => r.getD (0 + j) Cell.null)) :=
        lookupCol_append_left hlk
      simp only [List.get_map]
      rw [getCell, hlk2]
      simp only [Option.getD_some]
      have hmap : ((firstDedup (allKeys t g.by_)).map
          (fun r => r.getD (0 + j) Cell.null)).getD i Cell.null =
          ((firstDedup (allKeys t g.by_)).get ⟨i, hi⟩).getD (0 + j) Cell.null := by
        rw [List.getD_eq_getElem _ _ (by simpa using hi)]
        simp
      rw [hmap]
      have hj0 : 0 + j = j := by omega
      rw [hj0]
      have hjlt : j < ((firstDedup (allKeys t g.by_)).get ⟨i, hi⟩).length := by
        rw [hleni]
        exact hjb
      rw [List.getD_eq_getElem _ _ hjlt]
      simp
  have hmain : allKeys (buildTable g.by_ (firstDedup (allKeys t g.by_)) ++ aggCols)
      g.by_ = firstDedup (allKeys t g.by_) := by
    rw [allKeys, hrows]
    exact range_map_eq _ _ hpoint
  refine ⟨hmain, ?_, ?_⟩
  · intro k hk
    rw [hmain]
    exact mem_firstDedup hk
  · rw [hmain]
    exact firstDedup_nodup _

/-- Witness for C5: grouping the concrete table whose key column holds
a null produces an output group (row) for the null key tuple. -/
theorem groupby_keeps_null_key_groups_witness :
    [Cell.null] ∈ allKeys tGrouped ["k"] :=
  (groupby_keeps_null_key_groups tNullKey ⟨["k"], [("v", "sum")]⟩ none tGrouped
    (by decide)).2.1 [Cell.null] (by decide)

end DataOps

namespace DataOps

/-! ### C7 -/

/-- C7: whenever every plan step completes without a hard error (the
run returns a log rather than an exception), exactly one Run History
Entry — timestamp, goal, output path, report path, reflection verdict —
is appended to the persisted state, after the terminal report step and
unconditionally on the recorded outcomes: nothing in the append
inspects `dq_ok` or `reflection_ok`, so a failed DQ check or a failed
reflection verdict is logged, not fatal.  Moreover a dq_check step can
never raise: whenever a current table exists it always succeeds,
whatever the rule outcomes, so a recorded DQ failure never stops the
remaining plan steps. -/
theorem run_history_appended_once (now goal : String) (inputs : Inputs)
    (fs : List (String × Table)) (mem : Mem) (log : RunLog) (mem' : Mem)
    (fs' : List (String × Table))
    (h : run_agent now goal inputs fs mem = .ok (log, mem', fs')) :
    mem'.runs = mem.runs ++ [mkRunEntry now goal log] ∧
    (∀ (s : ExecState) (rules : DQRules), (currentTable s).isSome = true →
      ∃ s2, execStep mem now s (.dq_checkStep rules) = .ok s2) := by
  constructor
  · unfold run_agent at h
    cases hres : execSteps mem now (plan goal inputs)
        { log := { goal := goal, steps := plan goal inputs,
                   dq_requested := inputs.dq_rules.isSome, sections := [] },
          fs := fs } with
    | error e =>
        simp [hres] at h
    | ok s =>
        simp only [hres] at h
        simp only [Except.ok.injEq, Prod.mk.injEq] at h
        obtain ⟨hlog, hmem, _⟩ := h
        subst hlog
        rw [← hmem]
  · intro s rules hcur
    cases hc : currentTable s with
    | none =>
        rw [hc] at hcur
        cases hcur
    | some df =>
        cases hev : execStep mem now s (.dq_checkStep rules) with
        | ok s2 => exact ⟨s2, rfl⟩
        | error e => simp [execStep, hc] at hev

/-- Witness for C7: the concrete run — whose log records a failed DQ
check and a failed reflection verdict — still appends exactly its one
history entry. -/
theorem run_history_appended_once_witness :
    memEx2.runs = memEx.runs ++ [mkRunEntry "T1" "clean sales" logEx] ∧
    logEx.dq_ok = some false ∧ logEx.reflection_ok = some false :=
  ⟨(run_history_appended_once "T1" "clean sales" inputsEx fsEx memEx
      logEx memEx2 fsEx2 (by rfl)).1,
   by decide, by decide⟩

end DataOps
